import Mathlib

set_option linter.unusedVariables false

/-!  Verification development for the MediaDevicesManager subsystem of
     talk-desktop.  The definitions below are a shallow embedding of
     `MediaDevicesManager.js` (the device registry, diff engine, preference
     store, stream acquisition engine and track registry); theorems settle
     the specification claims about that code.

     Conventions: JS `undefined`/`null`/string tri-state selections are the
     inductive `Sel`; the persistent `BrowserStorage` is an association list
     with abstract (injective) JSON encoding; asynchronous hardware calls
     are split into a synchronous "issue" step (recorded in a call log) and
     explicit continuation functions for resolution/rejection. -/

/-- Device kind as reported by hardware enumeration. -/
inductive DKind where
  | audioinput
  | videoinput
  | audiooutput
deriving DecidableEq, Repr

/-- Tri-state device selection (`attributes.audioInputId` / `videoInputId`):
    JS `undefined` (no explicit choice yet), JS `null` (explicitly disabled),
    or a concrete device identifier string. -/
inductive Sel where
  | undef
  | nullv
  | pin (s : String)
deriving DecidableEq, Repr

/-- A device record as returned by `enumerateDevices` (labels are the empty
    string until permission is granted; no fallback label yet). -/
structure RawDevice where
  deviceId : String
  groupId : String
  kind : DKind
  label : String
deriving DecidableEq, Repr

/-- A device record held in `attributes.devices` and `_knownDevices`, after
    `_addDevice` attached a generated `fallbackLabel`. -/
structure MDevice where
  deviceId : String
  groupId : String
  kind : DKind
  label : String
  fallbackLabel : String
deriving DecidableEq, Repr

/-- Values in the persistent key-value store (`BrowserStorage`): the code
    stores plain strings for the selection keys and JSON-serialized
    identifier lists for the preference lists.  JSON encoding is abstracted
    as the injective constructors below. -/
inductive StoreVal where
  | strv (s : String)
  | listv (l : List String)
deriving DecidableEq, Repr

def storeGet (st : List (String × StoreVal)) (k : String) : Option StoreVal :=
  (st.find? (fun p => p.1 == k)).map (·.2)

def storeSet (st : List (String × StoreVal)) (k : String) (v : StoreVal) :
    List (String × StoreVal) :=
  st.filter (fun p => p.1 != k) ++ [(k, v)]

def storeRemove (st : List (String × StoreVal)) (k : String) :
    List (String × StoreVal) :=
  st.filter (fun p => p.1 != k)

/-- `track.kind` of a capture track: the strings `audio` / `video`. -/
inductive TKind where
  | audio
  | video
deriving DecidableEq, Repr

/-- A live media track handle.  `getSettings()` is modelled by
    `settingsPresent` (whether the settings object itself is truthy — the
    code guards on it) and `settingsDeviceId` (its `deviceId` member,
    `none` = JS `undefined`).  `track.stop()` sets `stopped`; per the DOM
    platform a self-initiated `stop()` does NOT fire the `ended` event, so
    stopping never removes the track from `_tracks` by itself. -/
structure Track where
  tid : Nat
  kind : TKind
  settingsPresent : Bool
  settingsDeviceId : Option String
  stopped : Bool
deriving DecidableEq, Repr

/-- A `deviceId` constraint value: the objects `\x7bexact: s\x7d`,
    `\x7bideal: s\x7d`, or a bare string. -/
inductive DevIdC where
  | exact (s : String)
  | ideal (s : String)
  | plain (s : String)
deriving DecidableEq, Repr

/-- Per-kind member of a `getUserMedia` constraints object: `false`, `true`,
    or an object with an optional `deviceId` member (other members of the
    object are irrelevant to this subsystem and not modelled). -/
inductive CSpec where
  | off
  | on
  | obj (deviceId : Option DevIdC)
deriving DecidableEq, Repr

structure Constraints where
  audio : CSpec
  video : CSpec
deriving DecidableEq, Repr

/-- Hardware calls issued to `navigator.mediaDevices`, in issue order. -/
inductive HwCall where
  | enumerate
  | gum (c : Constraints)
deriving DecidableEq, Repr

/-- The full manager state: the `attributes` fields, the private fields, the
    persistent store, the log of fired change events (event names, in
    order), the log of issued hardware calls, and whether the environment
    supports media devices (`isSupported()`). -/
structure MDM where
  devices : List MDevice
  audioInputId : Sel
  videoInputId : Sel
  knownDevices : List (String × MDevice)
  prefAudio : List String
  prefVideo : List String
  pending : Bool
  tracks : List Track
  store : List (String × StoreVal)
  events : List String
  hwCalls : List HwCall
  supported : Bool
deriving DecidableEq, Repr

def nullDeviceIdSentinel : String := "local-storage-null-device-id"

/-- A value passed to `set(key, value)`: a selection value or a device
    list (the documented attribute types). -/
inductive AttrVal where
  | sel (v : Sel)
  | devs (ds : List MDevice)
deriving DecidableEq, Repr

/-- JS string coercion of an array of device objects, as performed by
    `localStorage.setItem` when handed a non-string. -/
def jsArrayToString (ds : List MDevice) : String :=
  String.intercalate "," (ds.map (fun _ => "[object Object]"))

/-- `_storeDeviceId(key, value)`: only the two selection keys touch the
    store; `null` is first rewritten to the sentinel string; then a truthy
    value is stored and a falsy one (`undefined` / empty string) removes
    the entry. -/
def storeDeviceId (key : String) (v : AttrVal) (st : List (String × StoreVal)) :
    List (String × StoreVal) :=
  if key ≠ "audioInputId" ∧ key ≠ "videoInputId" then st
  else
    match v with
    | .sel .nullv => storeSet st key (.strv nullDeviceIdSentinel)
    | .sel .undef => storeRemove st key
    | .sel (.pin s) => if s = "" then storeRemove st key else storeSet st key (.strv s)
    | .devs ds => storeSet st key (.strv (jsArrayToString ds))

/-- The attribute assignment in `set`: the three documented attribute keys
    update their typed field; assignments to other keys (or with a value of
    the wrong shape, which the documented API never produces) leave the
    modelled state unchanged. -/
def setAttr (st : MDM) (key : String) (v : AttrVal) : MDM :=
  match key, v with
  | "audioInputId", .sel s => { st with audioInputId := s }
  | "videoInputId", .sel s => { st with videoInputId := s }
  | "devices", .devs ds => { st with devices := ds }
  | _, _ => st

/-- `set(key, value)`: assign the attribute, fire `change:` + key, persist
    via `_storeDeviceId`. -/
def mdmSet (st : MDM) (key : String) (v : AttrVal) : MDM :=
  let st1 := setAttr st key v
  let st2 := { st1 with events := st1.events ++ ["change:" ++ key] }
  { st2 with store := storeDeviceId key v st2.store }

/-- The synchronous part of the `MediaDevicesManager` constructor: load the
    preference lists, restore only the disabled-selection sentinel, and
    (when supported) issue the initial `getUserMedia(\x7baudio: true,
    video: true\x7d)` permission request.  A stored plain string under a
    preference key would be a JSON parse failure and is out of model. -/
def newMDM (store0 : List (String × StoreVal)) (sup : Bool) : MDM :=
  { devices := []
    audioInputId :=
      if storeGet store0 "audioInputId" = some (.strv nullDeviceIdSentinel) then .nullv else .undef
    videoInputId :=
      if storeGet store0 "videoInputId" = some (.strv nullDeviceIdSentinel) then .nullv else .undef
    knownDevices := []
    prefAudio := match storeGet store0 "audioInputPreferences" with
      | some (.listv l) => l
      | _ => []
    prefVideo := match storeGet store0 "videoInputPreferences" with
      | some (.listv l) => l
      | _ => []
    pending := false
    tracks := []
    store := store0
    events := []
    hwCalls := if sup then [.gum ⟨.on, .on⟩] else []
    supported := sup }

/-- Modelled from the spec: `getFirstAvailableMediaDevice` of
    `services/mediaDevicePreferences.ts` is not under src/.  Per the spec
    (section 4.1 step 5) it returns the first device identifier in the
    kind's preference list that exists among the given enumerated devices
    (passed here as their identifier list). -/
def getFirstAvailableMediaDevice (deviceIds : List String) (inputList : List String) :
    Option String :=
  inputList.find? (fun i => deviceIds.any (fun d => d == i))

def devIdsOfM (l : List MDevice) : List String := l.map (·.deviceId)

def devIdsOfR (l : List RawDevice) : List String := l.map (·.deviceId)

def mident (d : MDevice) : String × DKind := (d.deviceId, d.kind)

def rident (d : RawDevice) : String × DKind := (d.deviceId, d.kind)

def hasIdentR (l : List RawDevice) (i : String × DKind) : Bool :=
  l.any (fun d => decide (rident d = i))

def hasIdentM (l : List MDevice) (i : String × DKind) : Bool :=
  l.any (fun d => decide (mident d = i))

/-- The `splice` in `_removeDevice`: drop the first device with the given
    identity (no-op when absent, matching the `findIndex >= 0` guard). -/
def eraseFirstIdent (i : String × DKind) : List MDevice → List MDevice
  | [] => []
  | d :: t => if mident d = i then t else d :: eraseFirstIdent i t

/-- `_removeDevice(removedDevice)`: drop it from the live list and reset the
    matching selection to `undefined`. -/
def removeDevice (st : MDM) (rd : MDevice) : MDM :=
  if rd.kind = .audioinput ∧ st.audioInputId = .pin rd.deviceId then
    { st with devices := eraseFirstIdent (mident rd) st.devices, audioInputId := .undef }
  else if rd.kind = .videoinput ∧ st.videoInputId = .pin rd.deviceId then
    { st with devices := eraseFirstIdent (mident rd) st.devices, videoInputId := .undef }
  else { st with devices := eraseFirstIdent (mident rd) st.devices }

/-- The in-place mutation of `_updateDevice`: copy a non-empty label, always
    refresh `groupId` and `kind`. -/
def updElem (u : RawDevice) (d : MDevice) : MDevice :=
  { d with label := if u.label ≠ "" then u.label else d.label
         , groupId := u.groupId
         , kind := u.kind }

def updateFirst (u : RawDevice) : List MDevice → List MDevice
  | [] => []
  | d :: t => if mident d = rident u then updElem u d :: t else d :: updateFirst u t

/-- `_updateDevice(updatedDevice)`. -/
def updateDevice (st : MDM) (u : RawDevice) : MDM :=
  { st with devices := updateFirst u st.devices }

def devKey (k : DKind) (id : String) : String :=
  (match k with
   | .audioinput => "audioinput"
   | .videoinput => "videoinput"
   | .audiooutput => "audiooutput") ++ "-" ++ id

def knownLookup (kd : List (String × MDevice)) (key : String) : Option MDevice :=
  (kd.find? (fun p => p.1 == key)).map (·.2)

/-- JS object member assignment: overwrite in place when the key exists,
    append otherwise (insertion order preserved, as `Object.values` relies
    on it). -/
def knownUpsert (kd : List (String × MDevice)) (key : String) (v : MDevice) :
    List (String × MDevice) :=
  if kd.any (fun p => p.1 == key) then
    kd.map (fun p => if p.1 == key then (key, v) else p)
  else kd ++ [(key, v)]

/-- The numbering count in `_addDevice`: known devices of the kind whose
    `deviceId` is not the empty string (the literal check in the source —
    entries with `deviceId = "default"` are counted). -/
def knownCount (kd : List (String × MDevice)) (k : DKind) : Nat :=
  (kd.filter (fun p => decide (p.2.kind = k) && p.2.deviceId != "")).length

/-- Fallback label assignment for a first-ever-seen device (`t('spreed',…)`
    is modelled as the substituted English string). -/
def fallbackFor (kd : List (String × MDevice)) (a : RawDevice) : String :=
  if a.deviceId = "default" ∨ a.deviceId = "" then "Default"
  else match a.kind with
    | .audioinput => "Microphone " ++ toString (knownCount kd .audioinput + 1)
    | .videoinput => "Camera " ++ toString (knownCount kd .videoinput + 1)
    | .audiooutput => "Speaker " ++ toString (knownCount kd .audiooutput + 1)

/-- The device record built by `_addDevice` (cache hit reuses the cached
    fallback label unconditionally and the cached label for an empty fresh
    label). -/
def mkAdded (kd : List (String × MDevice)) (a : RawDevice) : MDevice :=
  match knownLookup kd (devKey a.kind a.deviceId) with
  | some known =>
      { deviceId := a.deviceId, groupId := a.groupId, kind := a.kind
      , label := if a.label ≠ "" then a.label else known.label
      , fallbackLabel := known.fallbackLabel }
  | none =>
      { deviceId := a.deviceId, groupId := a.groupId, kind := a.kind
      , label := a.label
      , fallbackLabel := fallbackFor kd a }

/-- `_addDevice(addedDevice)`: build the record, upsert the known-device
    cache, append to the live list. -/
def addDevice (st : MDM) (a : RawDevice) : MDM :=
  let nd := mkAdded st.knownDevices a
  { st with devices := st.devices ++ [nd]
          , knownDevices := knownUpsert st.knownDevices (devKey a.kind a.deviceId) nd }

/-- The removed/updated/added processing of `_updateDevices` (lines
    computing the three sets against the ORIGINAL device list, then applying
    them in that order). -/
def devicesDiffPhase (st : MDM) (fresh : List RawDevice) : MDM :=
  let removed := st.devices.filter (fun od => !(hasIdentR fresh (mident od)))
  let updated := fresh.filter (fun d => hasIdentM st.devices (rident d))
  let added := fresh.filter (fun d => !(hasIdentM st.devices (rident d)))
  let st1 := removed.foldl removeDevice st
  let st2 := updated.foldl updateDevice st1
  added.foldl addDevice st2

def kindIds (fresh : List RawDevice) (k : DKind) : List String :=
  (fresh.filter (fun d => decide (d.kind = k))).map (·.deviceId)

/-- Modelled from the spec: `populateMediaDevicesPreferences` of
    `services/mediaDevicePreferences.ts` is not under src/.  Per the spec
    (section 4.2) it appends, to each kind's list, any device identifier of
    that kind present in the fresh enumeration but absent from the list,
    and reports whether the list changed. -/
def populateList (ids : List String) (l : List String) : List String :=
  ids.foldl (fun acc i => if acc.contains i then acc else acc ++ [i]) l

/-- `_populatePreferences(devices)`: adopt and persist each changed list. -/
def populatePhase (st : MDM) (fresh : List RawDevice) : MDM :=
  let na := populateList (kindIds fresh .audioinput) st.prefAudio
  let nv := populateList (kindIds fresh .videoinput) st.prefVideo
  let st1 :=
    if na ≠ st.prefAudio then
      { st with prefAudio := na
              , store := storeSet st.store "audioInputPreferences" (.listv na) }
    else st
  if nv ≠ st1.prefVideo then
    { st1 with prefVideo := nv
             , store := storeSet st1.store "videoInputPreferences" (.listv nv) }
  else st1

/-- JS `x || y` over the recomputed default: a non-empty identifier from the
    preference match wins, otherwise the fallback identifier (which may be
    the empty string), otherwise `undefined`. -/
def jsOrId (x : Option String) (y : Option String) : Sel :=
  match x with
  | some s =>
      if s ≠ "" then .pin s
      else match y with
        | some t => .pin t
        | none => .undef
  | none => match y with
    | some t => .pin t
    | none => .undef

def firstKindId (fresh : List RawDevice) (k : DKind) : Option String :=
  (fresh.find? (fun d => decide (d.kind = k))).map (·.deviceId)

/-- JS strict equality between a selection and a `string | undefined`
    value (`null` equals neither). -/
def selEqOpt (s : Sel) (o : Option String) : Bool :=
  match s, o with
  | .undef, none => true
  | .pin a, some b => a == b
  | _, _ => false

/-- The recompute guard of `_updateDevices`: current selection is
    `undefined` or strictly equals the previous automatic default. -/
def stickyCond (cur : Sel) (prevFirst : Option String) : Bool :=
  decide (cur = Sel.undef) || selEqOpt cur prevFirst

/-- The `then`-continuation of `_updateDevices` once `enumerateDevices`
    resolved with `fresh`: capture the previous selections and previous
    automatic defaults, run the diff phase, populate preferences, recompute
    automatic defaults under the sticky guard, emit change events, clear
    the pending marker. -/
def updateDevicesResolve (st : MDM) (fresh : List RawDevice) : MDM :=
  let prevAudio := st.audioInputId
  let prevVideo := st.videoInputId
  let prevFirstA := getFirstAvailableMediaDevice (devIdsOfM st.devices) st.prefAudio
  let prevFirstV := getFirstAvailableMediaDevice (devIdsOfM st.devices) st.prefVideo
  let st2 := populatePhase (devicesDiffPhase st fresh) fresh
  let a' := if stickyCond st2.audioInputId prevFirstA then
              jsOrId (getFirstAvailableMediaDevice (devIdsOfR fresh) st2.prefAudio)
                     (firstKindId fresh .audioinput)
            else st2.audioInputId
  let v' := if stickyCond st2.videoInputId prevFirstV then
              jsOrId (getFirstAvailableMediaDevice (devIdsOfR fresh) st2.prefVideo)
                     (firstKindId fresh .videoinput)
            else st2.videoInputId
  let st3 := { st2 with audioInputId := a', videoInputId := v' }
  let st4 := if prevAudio ≠ a' then
               { st3 with events := st3.events ++ ["change:audioInputId"] }
             else st3
  let st5 := if prevVideo ≠ v' then
               { st4 with events := st4.events ++ ["change:videoInputId"] }
             else st4
  { st5 with pending := false }

/-- The synchronous part of `_updateDevices()`: unconditionally issue a new
    hardware enumeration and (re)set the pending marker. -/
def updateDevicesStart (st : MDM) : MDM :=
  { st with pending := true, hwCalls := st.hwCalls ++ [.enumerate] }

/-- The `catch`-continuation of `_updateDevices` (enumeration failure):
    log and clear the pending marker, all other state untouched. -/
def updateDevicesEnumFail (st : MDM) : MDM :=
  { st with pending := false }

def cspecTruthy : CSpec → Bool
  | .off => false
  | _ => true

def devIdCTruthy : DevIdC → Bool
  | .exact _ => true
  | .ideal _ => true
  | .plain s => s != ""

def cspecDeviceIdTruthy : CSpec → Bool
  | .obj (some d) => devIdCTruthy d
  | _ => false

/-- `constraints.kind = \x7b\x7d` (when it was `true`) followed by
    `constraints.kind.deviceId = \x7bexact: id\x7d`. -/
def setDeviceIdExact (c : CSpec) (s : String) : CSpec :=
  match c with
  | .on => .obj (some (.exact s))
  | .obj _ => .obj (some (.exact s))
  | .off => .off

/-- Constraint resolution of `_getUserMediaInternal` for one kind: only a
    truthy request without a truthy `deviceId` is touched; a truthy (i.e.
    non-empty) selection is injected as an exact constraint, a `null`
    selection forces the kind off, anything else leaves it as requested. -/
def resolveKind (sel : Sel) (c : CSpec) : CSpec :=
  if cspecTruthy c && !(cspecDeviceIdTruthy c) then
    match sel with
    | .pin s => if s ≠ "" then setDeviceIdExact c s else c
    | .nullv => .off
    | .undef => c
  else c

def resolveConstraints (st : MDM) (c : Constraints) : Constraints :=
  ⟨resolveKind st.audioInputId c.audio, resolveKind st.videoInputId c.video⟩

/-- The value the stopping test compares against: a string, or (when the
    JS expression `deviceId.exact || deviceId.ideal || deviceId` falls all
    the way through on falsy members) the deviceId object itself. -/
inductive ReqId where
  | strid (s : String)
  | objid (d : DevIdC)
deriving DecidableEq, Repr

def extractReqId : DevIdC → ReqId
  | .exact s => if s ≠ "" then .strid s else .objid (.exact s)
  | .ideal s => if s ≠ "" then .strid s else .objid (.ideal s)
  | .plain s => .strid s

def cspecReqId : CSpec → ReqId
  | .obj (some d) => extractReqId d
  | _ => .strid ""

/-- `settings.deviceId !== requested`: comparison against an object is
    always a mismatch. -/
def settingsDiffer (sdid : Option String) (r : ReqId) : Bool :=
  match r with
  | .strid s => decide (sdid ≠ some s)
  | .objid _ => true

/-- The per-track body of `_stopIncompatibleTracks`. -/
def stopTrackStep (c : Constraints) (t : Track) : Track :=
  let t1 :=
    if cspecDeviceIdTruthy c.audio && decide (t.kind = TKind.audio) && t.settingsPresent
        && settingsDiffer t.settingsDeviceId (cspecReqId c.audio) then
      { t with stopped := true }
    else t
  if cspecDeviceIdTruthy c.video && decide (t1.kind = TKind.video) && t1.settingsPresent
      && settingsDiffer t1.settingsDeviceId (cspecReqId c.video) then
    { t1 with stopped := true }
  else t1

def stopIncompatibleTracks (c : Constraints) (ts : List Track) : List Track :=
  ts.map (stopTrackStep c)

/-- `_getUserMediaInternal` up to and including issuing the hardware stream
    request: resolve the constraints, stop incompatible tracks, log the
    `getUserMedia` call; returns the state and the final constraints. -/
def gumIssue (st : MDM) (c : Constraints) : MDM × Constraints :=
  let c' := resolveConstraints st c
  let st1 := { st with tracks := stopIncompatibleTracks c' st.tracks }
  ({ st1 with hwCalls := st1.hwCalls ++ [.gum c'] }, c')

/-- `_registerStream`: register every track of the stream (appended to the
    Active Track Set in order). -/
def registerStream (st : MDM) (ts : List Track) : MDM :=
  { st with tracks := st.tracks ++ ts }

/-- The `ended`-listener installed by `_registerTrack`: remove the first
    occurrence of the track from `_tracks`.  This transition fires only
    when the platform dispatches `ended` (not on self-initiated `stop()`). -/
def removeFirstTrack (tid : Nat) : List Track → List Track
  | [] => []
  | t :: ts => if t.tid = tid then ts else t :: removeFirstTrack tid ts

def trackEnded (st : MDM) (tid : Nat) : MDM :=
  { st with tracks := removeFirstTrack tid st.tracks }

/-- `_updateSelectedDevicesFromGetUserMediaResult` for one kind: returns
    `some d` exactly when the code would adopt the negotiated identifier
    `d` (truthy current selection, a first track of the kind with truthy
    settings and truthy negotiated id differing from the selection). -/
def reconcileKindSel (sel : Sel) (ts : List Track) (k : TKind) : Option String :=
  match sel with
  | .pin s =>
      if s = "" then none
      else match (ts.filter (fun t => decide (t.kind = k))).head? with
        | some t =>
            if t.settingsPresent then
              match t.settingsDeviceId with
              | some d => if d ≠ "" ∧ s ≠ d then some d else none
              | none => none
            else none
        | none => none
  | _ => none

def updateSelectedFromResult (st : MDM) (ts : List Track) : MDM :=
  let st1 := match reconcileKindSel st.audioInputId ts .audio with
    | some d => mdmSet st "audioInputId" (.sel (.pin d))
    | none => st
  match reconcileKindSel st1.videoInputId ts .video with
  | some d => mdmSet st1 "videoInputId" (.sel (.pin d))
  | none => st1

/-- The success continuation of `_getUserMediaInternal`: register the
    stream's tracks, reconcile negotiated device identity, and trigger a
    fresh enumeration. -/
def gumSuccess (st : MDM) (c : Constraints) (newTracks : List Track) : MDM :=
  let p := gumIssue st c
  let st2 := registerStream p.1 newTracks
  let st3 := updateSelectedFromResult st2 newTracks
  updateDevicesStart st3

/-- The rejection continuation of `_getUserMediaInternal`: trigger a fresh
    enumeration and rethrow the original error unchanged. -/
def gumReject (st : MDM) (c : Constraints) (err : String) : MDM × String :=
  let p := gumIssue st c
  (updateDevicesStart p.1, err)

/-- How a `getUserMedia` call proceeds from its entry point. -/
inductive GumRoute where
  | rejectedNotSupported (errName : String)
  | internalNow
  | internalAfterPending
deriving DecidableEq, Repr

/-- The entry of `getUserMedia(constraints)`: reject synchronously when
    unsupported; otherwise proceed immediately, or chain on the pending
    enumeration promise when one is in flight (then proceed regardless of
    its outcome).  No state is mutated here. -/
def getUserMediaEntry (st : MDM) (c : Constraints) : MDM × GumRoute :=
  if !st.supported then (st, .rejectedNotSupported "NotSupportedError")
  else if st.pending then (st, .internalAfterPending)
  else (st, .internalNow)

/-! ## Characterization helpers (pure re-expressions used in proofs) -/

/-- The device-list effect of folding `removeDevice` over a removal list. -/
def eraseFoldList (l : List MDevice) (ds : List MDevice) : List MDevice :=
  ds.foldl (fun acc d => eraseFirstIdent (mident d) acc) l

/-- The device-list effect of folding `updateDevice` over an update list. -/
def updFoldList (ds : List RawDevice) (l : List MDevice) : List MDevice :=
  ds.foldl (fun acc u => updateFirst u acc) l

/-- The records appended by folding `addDevice` over an addition list,
    threading the known-device cache. -/
def addedRun (kd : List (String × MDevice)) : List RawDevice → List MDevice
  | [] => []
  | a :: t =>
      mkAdded kd a :: addedRun (knownUpsert kd (devKey a.kind a.deviceId) (mkAdded kd a)) t

/-! ## Store lemmas -/

theorem find?_key_filter_ne (st : List (String × StoreVal)) (k : String) :
    (st.filter (fun p => p.1 != k)).find? (fun p => p.1 == k) = none := by
  rw [List.find?_eq_none]
  intro x hx
  have := (List.mem_filter.mp hx).2
  simpa [bne] using this

theorem storeGet_storeSet_self (st : List (String × StoreVal)) (k : String) (v : StoreVal) :
    storeGet (storeSet st k v) k = some v := by
  unfold storeGet storeSet
  rw [List.find?_append, find?_key_filter_ne]
  simp

theorem storeGet_storeRemove_self (st : List (String × StoreVal)) (k : String) :
    storeGet (storeRemove st k) k = none := by
  unfold storeGet storeRemove
  rw [find?_key_filter_ne]
  rfl

/-! ## Small projection lemmas -/

theorem setAttr_store (st : MDM) (k : String) (v : AttrVal) :
    (setAttr st k v).store = st.store := by
  unfold setAttr; split <;> rfl

theorem setAttr_events (st : MDM) (k : String) (v : AttrVal) :
    (setAttr st k v).events = st.events := by
  unfold setAttr; split <;> rfl

theorem setAttr_tracks (st : MDM) (k : String) (v : AttrVal) :
    (setAttr st k v).tracks = st.tracks := by
  unfold setAttr; split <;> rfl

theorem mdmSet_store (st : MDM) (k : String) (v : AttrVal) :
    (mdmSet st k v).store = storeDeviceId k v st.store := by
  simp [mdmSet, setAttr_store]

theorem mdmSet_events (st : MDM) (k : String) (v : AttrVal) :
    (mdmSet st k v).events = st.events ++ ["change:" ++ k] := by
  simp [mdmSet, setAttr_events]

theorem mdmSet_tracks (st : MDM) (k : String) (v : AttrVal) :
    (mdmSet st k v).tracks = st.tracks := by
  simp [mdmSet, setAttr_tracks]

/-! ## Claim C7: acquisition failures trigger a refresh and propagate unchanged -/

/-- C7: for every acquisition in which the hardware stream request is
rejected, the rejection continuation triggers a fresh device enumeration
(exactly one `enumerate` call is appended after the single `getUserMedia`
call) and the original error is returned to the caller unchanged — it is
never swallowed, replaced, or retried (no second `getUserMedia` call is
issued). -/
theorem claim7_failure_propagation (st : MDM) (c : Constraints) (err : String) :
    (gumReject st c err).2 = err ∧
    (gumReject st c err).1.hwCalls =
      st.hwCalls ++ [.gum (resolveConstraints st c), .enumerate] ∧
    (gumReject st c err).1.pending = true := by
  refine ⟨rfl, ?_, rfl⟩
  simp [gumReject, gumIssue, updateDevicesStart]

/-! ## Claim C8: unsupported environment fails fast -/

/-- C8: when the environment lacks media-device support, `getUserMedia`
fails with the `NotSupportedError` rejection route before any hardware
call, and the manager state (including the hardware call log) is
unchanged. -/
theorem claim8_not_supported (st : MDM) (c : Constraints)
    (h : st.supported = false) :
    getUserMediaEntry st c = (st, .rejectedNotSupported "NotSupportedError") := by
  simp [getUserMediaEntry, h]

theorem claim8_witness :
    getUserMediaEntry (newMDM [] false) ⟨.on, .on⟩ =
      (newMDM [] false, .rejectedNotSupported "NotSupportedError") :=
  claim8_not_supported (newMDM [] false) ⟨.on, .on⟩ (by rfl)

/-! ## Claim C2: no de-duplication of hardware enumerations -/

def c2ExSt : MDM := { newMDM [] true with pending := true, hwCalls := [.enumerate] }

/-- C2 counterexample: in a state whose pending-enumeration marker is set
(one hardware enumeration already issued and in flight), a further call to
the refresh operation `_updateDevices` issues a second hardware
`enumerateDevices` call — the claim that no second call is issued is
false. -/
theorem claim2_counterexample :
    c2ExSt.pending = true ∧
    (updateDevicesStart c2ExSt).hwCalls = [.enumerate, .enumerate] := by
  constructor
  · rfl
  · rfl

/-- C2 amended: every call to the refresh operation issues exactly one new
hardware enumeration, even when one is already in flight — the pending
marker is replaced, not shared, so hardware enumerations are NOT
de-duplicated; the marker de-duplicates only acquisition: a `getUserMedia`
caller in a supported environment with a pending enumeration chains on the
in-flight enumeration (observing its settlement) instead of enumerating
itself. -/
theorem claim2_amended (st : MDM) (c : Constraints) :
    (updateDevicesStart st).hwCalls = st.hwCalls ++ [.enumerate] ∧
    (updateDevicesStart st).pending = true ∧
    (st.supported = true → st.pending = true →
      getUserMediaEntry st c = (st, .internalAfterPending)) := by
  refine ⟨rfl, rfl, ?_⟩
  intro h1 h2
  simp [getUserMediaEntry, h1, h2]

theorem claim2_witness :
    (updateDevicesStart c2ExSt).hwCalls = c2ExSt.hwCalls ++ [.enumerate] ∧
    getUserMediaEntry c2ExSt ⟨.on, .on⟩ = (c2ExSt, .internalAfterPending) := by
  have h := claim2_amended c2ExSt ⟨.on, .on⟩
  exact ⟨h.1, h.2.2 (by rfl) (by rfl)⟩

/-! ## Claim C10: persistence frame property of `set` -/

/-- C10: `set(key, value)` always fires the `change:key` notification; for
every key other than the two selection keys it leaves the persistent store
completely unchanged; and for the two selection keys a falsy value other
than `null` (JS `undefined` or the empty string) removes the persisted
entry instead of writing a value. -/
theorem claim10_set_frame (st : MDM) (key : String) (v : AttrVal) :
    (mdmSet st key v).events = st.events ++ ["change:" ++ key] ∧
    (key ≠ "audioInputId" → key ≠ "videoInputId" →
      (mdmSet st key v).store = st.store) ∧
    ((key = "audioInputId" ∨ key = "videoInputId") →
      (v = .sel .undef ∨ v = .sel (.pin "")) →
      (mdmSet st key v).store = storeRemove st.store key) := by
  refine ⟨mdmSet_events st key v, ?_, ?_⟩
  · intro h1 h2
    rw [mdmSet_store]
    unfold storeDeviceId
    rw [if_pos ⟨h1, h2⟩]
  · intro hk hval
    rw [mdmSet_store]
    unfold storeDeviceId
    have hcond : ¬(key ≠ "audioInputId" ∧ key ≠ "videoInputId") := by
      rcases hk with h | h <;> simp [h]
    rw [if_neg hcond]
    rcases hval with h | h <;> simp [h]

theorem claim10_witness :
    (mdmSet (newMDM [] true) "devices" (.devs [])).store = (newMDM [] true).store ∧
    (mdmSet (newMDM [] true) "devices" (.devs [])).events =
      (newMDM [] true).events ++ ["change:" ++ "devices"] ∧
    (mdmSet (newMDM [] true) "audioInputId" (.sel .undef)).store =
      storeRemove (newMDM [] true).store "audioInputId" := by
  refine ⟨(claim10_set_frame (newMDM [] true) "devices" (.devs [])).2.1
      (by decide) (by decide),
    (claim10_set_frame (newMDM [] true) "devices" (.devs [])).1,
    (claim10_set_frame (newMDM [] true) "audioInputId" (.sel .undef)).2.2
      (Or.inl rfl) (Or.inl rfl)⟩

/-! ## Claim C3: fallback label numbering -/

def c3ExSt : MDM :=
  { newMDM [] true with
    knownDevices := [("audioinput-default", ⟨"default", "g", .audioinput, "", "Default"⟩)] }

/-- The count the CLAIM describes: previously known devices of the kind
    whose identifier is not a default-device sentinel (`"default"` or the
    empty string). -/
def nonSentinelKnownCount (kd : List (String × MDevice)) (k : DKind) : Nat :=
  (kd.filter (fun p =>
    decide (p.2.kind = k) && p.2.deviceId != "" && p.2.deviceId != "default")).length

/-- C3 counterexample: with the known-device cache holding exactly the
`default` microphone entry (zero non-sentinel microphones known), adding a
fresh uncached microphone yields fallback label "Microphone 2", while the
claim's formula (count of known non-sentinel devices of the kind, plus
one) demands "Microphone 1" — the code counts the cached `default` entry
because its filter excludes only the empty-string identifier. -/
theorem claim3_counterexample :
    (addDevice c3ExSt ⟨"mic1", "g", .audioinput, ""⟩).devices.map (·.fallbackLabel) =
      ["Microphone 2"] ∧
    nonSentinelKnownCount c3ExSt.knownDevices .audioinput = 0 ∧
    ("Microphone " ++ toString (nonSentinelKnownCount c3ExSt.knownDevices .audioinput + 1)) =
      "Microphone 1" ∧
    ("Microphone 2" : String) ≠ "Microphone 1" := by
  refine ⟨by decide, by decide, by decide, by decide⟩

/-- C3 amended: for an added device with no cache entry, the sentinel
identifiers `"default"` and `""` get fallback label "Default"; otherwise
the fallback label is the kind word followed by N, where N is one plus the number of cached
devices of the same kind whose identifier is not the EMPTY STRING (cached
`"default"` entries are included in this count); for an added device with
a cache entry, the cached fallback label is reused unconditionally and the
cached label is used exactly when the fresh record's label is empty. -/
theorem claim3_amended (st : MDM) (a : RawDevice) :
    (addDevice st a).devices = st.devices ++ [mkAdded st.knownDevices a] ∧
    (∀ known, knownLookup st.knownDevices (devKey a.kind a.deviceId) = some known →
      (mkAdded st.knownDevices a).fallbackLabel = known.fallbackLabel ∧
      (mkAdded st.knownDevices a).label =
        (if a.label ≠ "" then a.label else known.label)) ∧
    (knownLookup st.knownDevices (devKey a.kind a.deviceId) = none →
      (mkAdded st.knownDevices a).label = a.label ∧
      ((a.deviceId = "default" ∨ a.deviceId = "") →
        (mkAdded st.knownDevices a).fallbackLabel = "Default") ∧
      (¬(a.deviceId = "default" ∨ a.deviceId = "") → a.kind = .audioinput →
        (mkAdded st.knownDevices a).fallbackLabel =
          "Microphone " ++ toString (knownCount st.knownDevices .audioinput + 1)) ∧
      (¬(a.deviceId = "default" ∨ a.deviceId = "") → a.kind = .videoinput →
        (mkAdded st.knownDevices a).fallbackLabel =
          "Camera " ++ toString (knownCount st.knownDevices .videoinput + 1)) ∧
      (¬(a.deviceId = "default" ∨ a.deviceId = "") → a.kind = .audiooutput →
        (mkAdded st.knownDevices a).fallbackLabel =
          "Speaker " ++ toString (knownCount st.knownDevices .audiooutput + 1))) := by
  refine ⟨rfl, ?_, ?_⟩
  · intro known hk
    unfold mkAdded
    rw [hk]
    exact ⟨rfl, rfl⟩
  · intro hk
    unfold mkAdded
    rw [hk]
    refine ⟨rfl, ?_, ?_, ?_, ?_⟩
    · intro hs
      simp [fallbackFor, hs]
    · intro hs hkind
      simp [fallbackFor, hs, hkind]
    · intro hs hkind
      simp [fallbackFor, hs, hkind]
    · intro hs hkind
      simp [fallbackFor, hs, hkind]

theorem claim3_witness :
    (addDevice c3ExSt ⟨"mic1", "g", .audioinput, ""⟩).devices =
      c3ExSt.devices ++ [mkAdded c3ExSt.knownDevices ⟨"mic1", "g", .audioinput, ""⟩] ∧
    (mkAdded c3ExSt.knownDevices ⟨"mic1", "g", .audioinput, ""⟩).fallbackLabel =
      "Microphone " ++ toString (knownCount c3ExSt.knownDevices .audioinput + 1) := by
  have h := claim3_amended c3ExSt ⟨"mic1", "g", .audioinput, ""⟩
  exact ⟨h.1, ((h.2.2 (by decide)).2.2.1 (by decide) rfl)⟩

/-! ## Claim C4: round-trip of the persisted selection -/

/-- C4 counterexample: storing the concrete identifier "mic1" via `set` and
constructing a new manager over the resulting store yields `undefined` for
`audioInputId`, not "mic1" — the constructor restores only the disabled
sentinel, never a concrete identifier. -/
theorem claim4_counterexample :
    (newMDM (mdmSet (newMDM [] true) "audioInputId" (.sel (.pin "mic1"))).store
        true).audioInputId = .undef ∧
    Sel.undef ≠ .pin "mic1" := by
  refine ⟨by decide, by decide⟩

/-- C4 amended: storing `null` via `set` for either selection key and
constructing a new manager over the same persistent store restores `null`
(neither `undefined` nor the sentinel string); storing a concrete
identifier persists it in the store (for a non-empty identifier), but the
newly constructed manager yields `undefined` for that key — the
constructor restores only the disabled sentinel (the degenerate exception
being an identifier equal to the sentinel string itself, which reads back
as `null`). -/
theorem claim4_amended (st : MDM) (sup : Bool) (s : String) :
    (newMDM (mdmSet st "audioInputId" (.sel .nullv)).store sup).audioInputId = .nullv ∧
    (newMDM (mdmSet st "videoInputId" (.sel .nullv)).store sup).videoInputId = .nullv ∧
    (s ≠ nullDeviceIdSentinel →
      (newMDM (mdmSet st "audioInputId" (.sel (.pin s))).store sup).audioInputId = .undef) ∧
    (s ≠ nullDeviceIdSentinel →
      (newMDM (mdmSet st "videoInputId" (.sel (.pin s))).store sup).videoInputId = .undef) ∧
    (s ≠ "" →
      storeGet (mdmSet st "audioInputId" (.sel (.pin s))).store "audioInputId" =
        some (.strv s)) ∧
    (s ≠ "" →
      storeGet (mdmSet st "videoInputId" (.sel (.pin s))).store "videoInputId" =
        some (.strv s)) := by
  have hnullA : (mdmSet st "audioInputId" (.sel .nullv)).store =
      storeSet st.store "audioInputId" (.strv nullDeviceIdSentinel) := by
    rw [mdmSet_store]; rfl
  have hnullV : (mdmSet st "videoInputId" (.sel .nullv)).store =
      storeSet st.store "videoInputId" (.strv nullDeviceIdSentinel) := by
    rw [mdmSet_store]; rfl
  have hpinA : ∀ s : String, (mdmSet st "audioInputId" (.sel (.pin s))).store =
      (if s = "" then storeRemove st.store "audioInputId"
       else storeSet st.store "audioInputId" (.strv s)) := by
    intro s; rw [mdmSet_store]; rfl
  have hpinV : ∀ s : String, (mdmSet st "videoInputId" (.sel (.pin s))).store =
      (if s = "" then storeRemove st.store "videoInputId"
       else storeSet st.store "videoInputId" (.strv s)) := by
    intro s; rw [mdmSet_store]; rfl
  refine ⟨?_, ?_, ?_, ?_, ?_, ?_⟩
  · simp only [newMDM, hnullA, storeGet_storeSet_self, if_pos]
  · simp only [newMDM, hnullV, storeGet_storeSet_self, if_pos]
  · intro hs
    by_cases he : s = ""
    · subst he
      simp only [newMDM, hpinA, if_pos rfl, storeGet_storeRemove_self]
      simp
      rw [storeGet_storeRemove_self]
      simp
    · have : (newMDM (mdmSet st "audioInputId" (.sel (.pin s))).store sup).audioInputId =
          (if storeGet (storeSet st.store "audioInputId" (.strv s)) "audioInputId" =
              some (.strv nullDeviceIdSentinel) then Sel.nullv else Sel.undef) := by
        simp only [newMDM, hpinA, if_neg he]
      rw [this, storeGet_storeSet_self, if_neg]
      intro hcontra
      exact hs (by injection (Option.some.inj hcontra))
  · intro hs
    by_cases he : s = ""
    · subst he
      simp only [newMDM, hpinV, if_pos rfl, storeGet_storeRemove_self]
      simp
      rw [storeGet_storeRemove_self]
      simp
    · have : (newMDM (mdmSet st "videoInputId" (.sel (.pin s))).store sup).videoInputId =
          (if storeGet (storeSet st.store "videoInputId" (.strv s)) "videoInputId" =
              some (.strv nullDeviceIdSentinel) then Sel.nullv else Sel.undef) := by
        simp only [newMDM, hpinV, if_neg he]
      rw [this, storeGet_storeSet_self, if_neg]
      intro hcontra
      exact hs (by injection (Option.some.inj hcontra))
  · intro hs
    rw [hpinA, if_neg hs, storeGet_storeSet_self]
  · intro hs
    rw [hpinV, if_neg hs, storeGet_storeSet_self]

theorem claim4_witness :
    (newMDM (mdmSet (newMDM [] true) "audioInputId" (.sel .nullv)).store true).audioInputId
        = .nullv ∧
    (newMDM (mdmSet (newMDM [] true) "audioInputId" (.sel (.pin "mic1"))).store
        true).audioInputId = .undef ∧
    storeGet (mdmSet (newMDM [] true) "audioInputId" (.sel (.pin "mic1"))).store
        "audioInputId" = some (.strv "mic1") := by
  have h := claim4_amended (newMDM [] true) true "mic1"
  exact ⟨h.1, h.2.2.1 (by decide), h.2.2.2.2.1 (by decide)⟩

/-! ## Claim C5: constraint resolution -/

/-- C5 counterexample: with the current audio selection being the concrete
(empty-string) device identifier and the caller requesting audio without a
device identifier (`audio: true`), the identifier is NOT injected — the
constraint is left as `true` rather than becoming an exact deviceId
constraint, because the injection is guarded by JS truthiness of the
selection and the empty string is falsy. -/
theorem claim5_counterexample :
    resolveConstraints { newMDM [] true with audioInputId := .pin "" } ⟨.on, .off⟩ =
      ⟨.on, .off⟩ ∧
    (CSpec.on : CSpec) ≠ .obj (some (.exact "")) := by
  refine ⟨by decide, by decide⟩

/-- C5 amended: per media kind, a caller-specified truthy `deviceId` is
never overridden; a kind requested as `false` stays off; for a truthy
request without a truthy `deviceId`: a NON-EMPTY concrete selection is
injected as an exact deviceId constraint, the empty-string selection is
treated as no selection (nothing injected, nothing forced off), a `null`
selection forces the kind off, and an `undefined` selection leaves the
request untouched.  (A caller `deviceId` that is the bare empty string is
itself falsy, hence overridable.) -/
theorem claim5_amended (sel : Sel) (c : CSpec) :
    (cspecDeviceIdTruthy c = true → resolveKind sel c = c) ∧
    (c = .off → resolveKind sel c = c) ∧
    (cspecTruthy c = true → cspecDeviceIdTruthy c = false →
      ((∀ s, sel = .pin s → s ≠ "" → resolveKind sel c = .obj (some (.exact s))) ∧
       (sel = .pin "" → resolveKind sel c = c) ∧
       (sel = .nullv → resolveKind sel c = .off) ∧
       (sel = .undef → resolveKind sel c = c))) := by
  refine ⟨?_, ?_, ?_⟩
  · intro h
    unfold resolveKind
    rw [if_neg]
    simp [h]
  · intro h
    subst h
    rfl
  · intro h1 h2
    have hcond : (cspecTruthy c && !(cspecDeviceIdTruthy c)) = true := by
      simp [h1, h2]
    refine ⟨?_, ?_, ?_, ?_⟩
    · intro s hs hne
      subst hs
      unfold resolveKind
      rw [if_pos hcond]
      show (if s ≠ "" then setDeviceIdExact c s else c) = _
      rw [if_pos hne]
      cases c
      · simp [cspecTruthy] at h1
      · rfl
      · rfl
    · intro hs
      subst hs
      unfold resolveKind
      rw [if_pos hcond]
      show (if "" ≠ "" then setDeviceIdExact c "" else c) = c
      simp
    · intro hs
      subst hs
      unfold resolveKind
      rw [if_pos hcond]
    · intro hs
      subst hs
      unfold resolveKind
      rw [if_pos hcond]

theorem claim5_witness :
    resolveKind (.pin "mic1") .on = .obj (some (.exact "mic1")) ∧
    resolveKind .nullv .on = .off ∧
    resolveKind .undef (.obj (some (.exact "cam9"))) = .obj (some (.exact "cam9")) := by
  refine ⟨((claim5_amended (.pin "mic1") .on).2.2 (by decide) (by decide)).1 "mic1" rfl
      (by decide),
    ((claim5_amended .nullv .on).2.2 (by decide) (by decide)).2.2.1 rfl,
    (claim5_amended .undef (.obj (some (.exact "cam9")))).1 (by decide)⟩

/-! ## Claim C6: stopping incompatible tracks -/

def c6ExSt : MDM := { newMDM [] true with tracks := [⟨1, .video, true, some "cam1", false⟩] }

def c6ExC : Constraints := ⟨.off, .obj (some (.exact "cam2"))⟩

def c6Cam2T : Track := ⟨2, .video, true, some "cam2", false⟩

/-- C6 counterexample: an active track bound to "cam1"; acquisition with
`video.deviceId.exact = "cam2"` succeeds and returns the cam2 track.  The
cam1 track is stop()-ed, but it REMAINS a member of the Active Track Set
(self-initiated `stop()` fires no `ended` event), so afterwards the video
tracks are NOT only the new cam2 track — the claim's membership assertion
is false. -/
theorem claim6_counterexample :
    (gumSuccess c6ExSt c6ExC [c6Cam2T]).tracks =
      [⟨1, .video, true, some "cam1", true⟩, c6Cam2T] ∧
    (⟨1, .video, true, some "cam1", true⟩ : Track) ∈
      (gumSuccess c6ExSt c6ExC [c6Cam2T]).tracks ∧
    (gumSuccess c6ExSt c6ExC [c6Cam2T]).tracks.filter
        (fun t => decide (t.kind = TKind.video)) ≠ [c6Cam2T] := by
  refine ⟨by decide, by decide, by decide⟩

theorem updateSelectedFromResult_tracks (st : MDM) (ts : List Track) :
    (updateSelectedFromResult st ts).tracks = st.tracks := by
  unfold updateSelectedFromResult
  split <;> dsimp only <;> split <;> simp [mdmSet_tracks]

theorem gumSuccess_tracks (st : MDM) (c : Constraints) (nts : List Track) :
    (gumSuccess st c nts).tracks =
      stopIncompatibleTracks (resolveConstraints st c) st.tracks ++ nts := by
  unfold gumSuccess updateDevicesStart
  simp only
  rw [updateSelectedFromResult_tracks]
  rfl

theorem stopTrackStep_audio_stops (c : Constraints) (t : Track) (r : String)
    (h1 : cspecDeviceIdTruthy c.audio = true) (h2 : cspecReqId c.audio = .strid r)
    (h3 : t.kind = .audio) (h4 : t.settingsPresent = true)
    (h5 : t.settingsDeviceId ≠ some r) :
    (stopTrackStep c t).stopped = true := by
  have hdiff : settingsDiffer t.settingsDeviceId (cspecReqId c.audio) = true := by
    rw [h2]; simpa [settingsDiffer] using h5
  have hcond : (cspecDeviceIdTruthy c.audio && decide (t.kind = TKind.audio)
      && t.settingsPresent
      && settingsDiffer t.settingsDeviceId (cspecReqId c.audio)) = true := by
    simp [h1, h3, h4, hdiff]
  unfold stopTrackStep
  dsimp only
  rw [if_pos hcond]
  split <;> rfl

theorem stopTrackStep_video_stops (c : Constraints) (t : Track) (r : String)
    (h1 : cspecDeviceIdTruthy c.video = true) (h2 : cspecReqId c.video = .strid r)
    (h3 : t.kind = .video) (h4 : t.settingsPresent = true)
    (h5 : t.settingsDeviceId ≠ some r) :
    (stopTrackStep c t).stopped = true := by
  have hdiff : settingsDiffer t.settingsDeviceId (cspecReqId c.video) = true := by
    rw [h2]; simpa [settingsDiffer] using h5
  have hacond : ¬((cspecDeviceIdTruthy c.audio && decide (t.kind = TKind.audio)
      && t.settingsPresent
      && settingsDiffer t.settingsDeviceId (cspecReqId c.audio)) = true) := by
    simp [h3]
  have hvcond : (cspecDeviceIdTruthy c.video && decide (t.kind = TKind.video)
      && t.settingsPresent
      && settingsDiffer t.settingsDeviceId (cspecReqId c.video)) = true := by
    simp [h1, h3, h4, hdiff]
  unfold stopTrackStep
  dsimp only
  rw [if_neg hacond]
  rw [if_pos hvcond]

theorem stopTrackStep_cases (c : Constraints) (t : Track) :
    stopTrackStep c t = t ∨ stopTrackStep c t = { t with stopped := true } := by
  unfold stopTrackStep
  dsimp only
  split <;> split <;> first | (left; rfl) | (right; rfl)

/-- C6 amended: before the hardware request is issued (the `getUserMedia`
call is appended to the log only after the stop pass), every active track
of a kind requested with a truthy explicit device constraint whose
available settings carry a live identifier differing from the requested
string identifier has `stop()` invoked on it; after a successful
acquisition the new tracks are appended, and the previously active tracks
— including any just-stopped ones — REMAIN members of the Active Track Set
(each member is either untouched or merely stop-flagged; removal happens
only on a later `ended` event, which self-initiated stop does not fire). -/
theorem claim6_amended (st : MDM) (c : Constraints) (nts : List Track) :
    (gumIssue st c).1.tracks = st.tracks.map (stopTrackStep (resolveConstraints st c)) ∧
    (gumIssue st c).1.hwCalls = st.hwCalls ++ [.gum (resolveConstraints st c)] ∧
    (gumSuccess st c nts).tracks =
      st.tracks.map (stopTrackStep (resolveConstraints st c)) ++ nts ∧
    (∀ t : Track, ∀ r : String,
      cspecDeviceIdTruthy (resolveConstraints st c).audio = true →
      cspecReqId (resolveConstraints st c).audio = .strid r →
      t.kind = .audio → t.settingsPresent = true → t.settingsDeviceId ≠ some r →
      (stopTrackStep (resolveConstraints st c) t).stopped = true) ∧
    (∀ t : Track, ∀ r : String,
      cspecDeviceIdTruthy (resolveConstraints st c).video = true →
      cspecReqId (resolveConstraints st c).video = .strid r →
      t.kind = .video → t.settingsPresent = true → t.settingsDeviceId ≠ some r →
      (stopTrackStep (resolveConstraints st c) t).stopped = true) ∧
    (∀ t : Track, stopTrackStep (resolveConstraints st c) t = t ∨
      stopTrackStep (resolveConstraints st c) t = { t with stopped := true }) := by
  refine ⟨rfl, by simp [gumIssue], gumSuccess_tracks st c nts, ?_, ?_, ?_⟩
  · intro t r h1 h2 h3 h4 h5
    exact stopTrackStep_audio_stops _ t r h1 h2 h3 h4 h5
  · intro t r h1 h2 h3 h4 h5
    exact stopTrackStep_video_stops _ t r h1 h2 h3 h4 h5
  · intro t
    exact stopTrackStep_cases _ t

theorem claim6_witness :
    (gumSuccess c6ExSt c6ExC [c6Cam2T]).tracks =
      c6ExSt.tracks.map (stopTrackStep (resolveConstraints c6ExSt c6ExC)) ++ [c6Cam2T] ∧
    (stopTrackStep (resolveConstraints c6ExSt c6ExC)
      ⟨1, .video, true, some "cam1", false⟩).stopped = true := by
  have h := claim6_amended c6ExSt c6ExC [c6Cam2T]
  exact ⟨h.2.2.1,
    h.2.2.2.2.1 ⟨1, .video, true, some "cam1", false⟩ "cam2"
      (by decide) (by decide) (by decide) (by decide) (by decide)⟩

/-! ## Claim C1: the sticky-default recompute step -/

/-- The manager state after the diff phase and preference population of one
    enumeration pass, before the selection recompute. -/
def midState (st : MDM) (fresh : List RawDevice) : MDM :=
  populatePhase (devicesDiffPhase st fresh) fresh

/-- The previous automatic audio default: computed from the pre-pass device
    list and pre-pass preference list. -/
def prevFirstAOf (st : MDM) : Option String :=
  getFirstAvailableMediaDevice (devIdsOfM st.devices) st.prefAudio

def prevFirstVOf (st : MDM) : Option String :=
  getFirstAvailableMediaDevice (devIdsOfM st.devices) st.prefVideo

/-- The recomputed automatic audio default of one pass: first preference
    identifier present in the fresh enumeration if that identifier is
    non-empty (JS truthiness), else the first fresh audio device's
    identifier, else `undefined`. -/
def autoPickA (st : MDM) (fresh : List RawDevice) : Sel :=
  jsOrId (getFirstAvailableMediaDevice (devIdsOfR fresh) (midState st fresh).prefAudio)
         (firstKindId fresh .audioinput)

def autoPickV (st : MDM) (fresh : List RawDevice) : Sel :=
  jsOrId (getFirstAvailableMediaDevice (devIdsOfR fresh) (midState st fresh).prefVideo)
         (firstKindId fresh .videoinput)

def newAudioSel (st : MDM) (fresh : List RawDevice) : Sel :=
  if stickyCond (midState st fresh).audioInputId (prevFirstAOf st) then autoPickA st fresh
  else (midState st fresh).audioInputId

def newVideoSel (st : MDM) (fresh : List RawDevice) : Sel :=
  if stickyCond (midState st fresh).videoInputId (prevFirstVOf st) then autoPickV st fresh
  else (midState st fresh).videoInputId

theorem updateDevicesResolve_eq (st : MDM) (fresh : List RawDevice) :
    updateDevicesResolve st fresh =
      { midState st fresh with
        audioInputId := newAudioSel st fresh
        videoInputId := newVideoSel st fresh
        events := (midState st fresh).events ++
          (if st.audioInputId ≠ newAudioSel st fresh then ["change:audioInputId"] else []) ++
          (if st.videoInputId ≠ newVideoSel st fresh then ["change:videoInputId"] else [])
        pending := false } := by
  unfold updateDevicesResolve newAudioSel newVideoSel autoPickA autoPickV prevFirstAOf
    prevFirstVOf midState
  dsimp only
  split <;> split <;> split <;> split <;> simp

theorem stickyCond_nullv (o : Option String) : stickyCond .nullv o = false := by
  cases o <;> rfl

def c1ExSt : MDM := { newMDM [] true with prefAudio := [""] }

def c1ExFresh : List RawDevice :=
  [⟨"mic1", "g1", .audioinput, ""⟩, ⟨"", "g0", .audioinput, ""⟩]

/-- C1 counterexample: selection is `undefined` (so the recompute guard
holds), the first identifier of the preference list present in the fresh
enumeration is the empty string (the pre-permission default id), yet the
recomputed selection is "mic1" — the first fresh audio device — because
the JS `||` chain skips the falsy empty-string preference match.  The
claim's "the recomputed value is the first identifier in the preference
list present in the fresh enumeration" is false here. -/
theorem claim1_counterexample :
    c1ExSt.audioInputId = .undef ∧
    getFirstAvailableMediaDevice (devIdsOfR c1ExFresh) (midState c1ExSt c1ExFresh).prefAudio
      = some "" ∧
    getFirstAvailableMediaDevice (devIdsOfR c1ExFresh) c1ExSt.prefAudio = some "" ∧
    (updateDevicesResolve c1ExSt c1ExFresh).audioInputId = .pin "mic1" ∧
    Sel.pin "mic1" ≠ .pin "" := by
  refine ⟨by decide, by decide, by decide, by decide, by decide⟩

/-- C1 amended: per kind, the selection is recomputed exactly when (after
the diff and populate phases) it is `undefined` or strictly equals the
automatic default computed from the previous device list and preference
list; the recomputed value is the first identifier of the (updated)
preference list present in the fresh enumeration PROVIDED that identifier
is non-empty — an empty-string match is skipped by the JS truthiness
fallthrough in favour of the first fresh device of that kind — else the
first fresh device's identifier, else `undefined`; a selection that fails
the guard (an explicit pin differing from the previous automatic default,
or the disabled `null`) is never overwritten. -/
theorem claim1_amended (st : MDM) (fresh : List RawDevice) :
    (stickyCond (midState st fresh).audioInputId (prevFirstAOf st) = true →
      (updateDevicesResolve st fresh).audioInputId = autoPickA st fresh) ∧
    (stickyCond (midState st fresh).audioInputId (prevFirstAOf st) = false →
      (updateDevicesResolve st fresh).audioInputId = (midState st fresh).audioInputId) ∧
    ((midState st fresh).audioInputId = .nullv →
      (updateDevicesResolve st fresh).audioInputId = .nullv) ∧
    (stickyCond (midState st fresh).videoInputId (prevFirstVOf st) = true →
      (updateDevicesResolve st fresh).videoInputId = autoPickV st fresh) ∧
    (stickyCond (midState st fresh).videoInputId (prevFirstVOf st) = false →
      (updateDevicesResolve st fresh).videoInputId = (midState st fresh).videoInputId) ∧
    ((midState st fresh).videoInputId = .nullv →
      (updateDevicesResolve st fresh).videoInputId = .nullv) := by
  have ha : (updateDevicesResolve st fresh).audioInputId = newAudioSel st fresh := by
    rw [updateDevicesResolve_eq]
  have hv : (updateDevicesResolve st fresh).videoInputId = newVideoSel st fresh := by
    rw [updateDevicesResolve_eq]
  refine ⟨?_, ?_, ?_, ?_, ?_, ?_⟩
  · intro h
    rw [ha]; unfold newAudioSel; rw [if_pos h]
  · intro h
    rw [ha]; unfold newAudioSel; rw [if_neg (by simp [h])]
  · intro h
    rw [ha]; unfold newAudioSel; rw [h, stickyCond_nullv]
    simp
  · intro h
    rw [hv]; unfold newVideoSel; rw [if_pos h]
  · intro h
    rw [hv]; unfold newVideoSel; rw [if_neg (by simp [h])]
  · intro h
    rw [hv]; unfold newVideoSel; rw [h, stickyCond_nullv]
    simp

def c1WitFresh : List RawDevice := [⟨"mic1", "g1", .audioinput, "Mic"⟩]

theorem claim1_witness :
    (updateDevicesResolve (newMDM [] true) c1WitFresh).audioInputId =
      autoPickA (newMDM [] true) c1WitFresh ∧
    (updateDevicesResolve { newMDM [] true with audioInputId := .nullv }
      c1WitFresh).audioInputId = .nullv := by
  refine ⟨(claim1_amended (newMDM [] true) c1WitFresh).1 (by decide), ?_⟩
  exact (claim1_amended { newMDM [] true with audioInputId := .nullv } c1WitFresh).2.2.1
    (by decide)

/-! ## Claim C9: idempotence machinery.
    Characterization of the device lists produced by the diff phase. -/

theorem foldl_proj_const {α β γ : Type} (f : β → α → β) (g : β → γ)
    (h : ∀ b a, g (f b a) = g b) : ∀ (l : List α) (b : β), g (l.foldl f b) = g b := by
  intro l
  induction l with
  | nil => intro b; rfl
  | cons x t ih => intro b; rw [List.foldl_cons, ih, h]

theorem removeDevice_devices (st : MDM) (rd : MDevice) :
    (removeDevice st rd).devices = eraseFirstIdent (mident rd) st.devices := by
  unfold removeDevice
  split
  · rfl
  · split <;> rfl

theorem removeDevice_prefAudio (st : MDM) (rd : MDevice) :
    (removeDevice st rd).prefAudio = st.prefAudio := by
  unfold removeDevice
  split
  · rfl
  · split <;> rfl

theorem removeDevice_prefVideo (st : MDM) (rd : MDevice) :
    (removeDevice st rd).prefVideo = st.prefVideo := by
  unfold removeDevice
  split
  · rfl
  · split <;> rfl

theorem removeDevice_knownDevices (st : MDM) (rd : MDevice) :
    (removeDevice st rd).knownDevices = st.knownDevices := by
  unfold removeDevice
  split
  · rfl
  · split <;> rfl

theorem removeFold_devices (ds : List MDevice) (st : MDM) :
    (ds.foldl removeDevice st).devices = eraseFoldList st.devices ds := by
  induction ds generalizing st with
  | nil => rfl
  | cons d t ih =>
      rw [List.foldl_cons, ih]
      unfold eraseFoldList
      rw [List.foldl_cons, removeDevice_devices]

theorem removeFold_prefAudio (ds : List MDevice) (st : MDM) :
    (ds.foldl removeDevice st).prefAudio = st.prefAudio :=
  foldl_proj_const removeDevice (fun m => m.prefAudio) removeDevice_prefAudio ds st

theorem removeFold_prefVideo (ds : List MDevice) (st : MDM) :
    (ds.foldl removeDevice st).prefVideo = st.prefVideo :=
  foldl_proj_const removeDevice (fun m => m.prefVideo) removeDevice_prefVideo ds st

theorem removeFold_knownDevices (ds : List MDevice) (st : MDM) :
    (ds.foldl removeDevice st).knownDevices = st.knownDevices :=
  foldl_proj_const removeDevice (fun m => m.knownDevices) removeDevice_knownDevices ds st

theorem updateFold_devices (ds : List RawDevice) (st : MDM) :
    (ds.foldl updateDevice st).devices = updFoldList ds st.devices := by
  induction ds generalizing st with
  | nil => rfl
  | cons d t ih =>
      rw [List.foldl_cons, ih]
      unfold updFoldList
      rw [List.foldl_cons]
      rfl

theorem updateFold_prefAudio (ds : List RawDevice) (st : MDM) :
    (ds.foldl updateDevice st).prefAudio = st.prefAudio :=
  foldl_proj_const updateDevice (fun m => m.prefAudio) (fun _ _ => rfl) ds st

theorem updateFold_prefVideo (ds : List RawDevice) (st : MDM) :
    (ds.foldl updateDevice st).prefVideo = st.prefVideo :=
  foldl_proj_const updateDevice (fun m => m.prefVideo) (fun _ _ => rfl) ds st

theorem updateFold_knownDevices (ds : List RawDevice) (st : MDM) :
    (ds.foldl updateDevice st).knownDevices = st.knownDevices :=
  foldl_proj_const updateDevice (fun m => m.knownDevices) (fun _ _ => rfl) ds st

theorem addFold_devices (ds : List RawDevice) (st : MDM) :
    (ds.foldl addDevice st).devices = st.devices ++ addedRun st.knownDevices ds := by
  induction ds generalizing st with
  | nil => simp [addedRun]
  | cons a t ih =>
      rw [List.foldl_cons, ih]
      show (addDevice st a).devices ++ addedRun (addDevice st a).knownDevices t = _
      unfold addDevice
      dsimp only
      rw [addedRun]
      simp [List.append_assoc]

theorem addFold_prefAudio (ds : List RawDevice) (st : MDM) :
    (ds.foldl addDevice st).prefAudio = st.prefAudio :=
  foldl_proj_const addDevice (fun m => m.prefAudio) (fun _ _ => rfl) ds st

theorem addFold_prefVideo (ds : List RawDevice) (st : MDM) :
    (ds.foldl addDevice st).prefVideo = st.prefVideo :=
  foldl_proj_const addDevice (fun m => m.prefVideo) (fun _ _ => rfl) ds st

theorem eraseFoldList_cons (l : List MDevice) (d : MDevice) (ds : List MDevice) :
    eraseFoldList l (d :: ds) = eraseFoldList (eraseFirstIdent (mident d) l) ds := rfl

theorem eraseFold_cons_skip (a : MDevice) :
    ∀ (ds : List MDevice) (t : List MDevice), (∀ d ∈ ds, mident d ≠ mident a) →
      eraseFoldList (a :: t) ds = a :: eraseFoldList t ds := by
  intro ds
  induction ds with
  | nil => intro t h; rfl
  | cons d ds' ih =>
      intro t h
      have hne : mident d ≠ mident a := h d (List.mem_cons_self d ds')
      have hstep : eraseFirstIdent (mident d) (a :: t) = a :: eraseFirstIdent (mident d) t := by
        show (if mident a = mident d then t else a :: eraseFirstIdent (mident d) t) =
          a :: eraseFirstIdent (mident d) t
        exact if_neg (fun he => hne he.symm)
      rw [eraseFoldList_cons, hstep, eraseFoldList_cons]
      exact ih (eraseFirstIdent (mident d) t) (fun x hx => h x (List.mem_cons_of_mem d hx))

theorem eraseFold_filter (l : List MDevice) (q : MDevice → Bool)
    (hq : ∀ x y, mident x = mident y → q x = q y) :
    eraseFoldList l (l.filter (fun x => !(q x))) = l.filter q := by
  induction l with
  | nil => rfl
  | cons a t ih =>
      by_cases h : q a = true
      · have hfilter : (a :: t).filter (fun x => !(q x)) = t.filter (fun x => !(q x)) := by
          simp [List.filter_cons, h]
        rw [hfilter]
        have hskip : eraseFoldList (a :: t) (t.filter (fun x => !(q x))) =
            a :: eraseFoldList t (t.filter (fun x => !(q x))) := by
          apply eraseFold_cons_skip
          intro d hd heq
          have hqd := (List.mem_filter.mp hd).2
          rw [hq d a heq, h] at hqd
          simp at hqd
        rw [hskip, ih]
        simp [List.filter_cons, h]
      · have hfilter : (a :: t).filter (fun x => !(q x)) = a :: t.filter (fun x => !(q x)) := by
          simp [List.filter_cons, h]
        rw [hfilter, eraseFoldList_cons]
        have herase : eraseFirstIdent (mident a) (a :: t) = t := by
          unfold eraseFirstIdent
          rw [if_pos rfl]
        rw [herase, ih]
        simp [List.filter_cons, h]

theorem diffPhase_devices (st : MDM) (fresh : List RawDevice) :
    (devicesDiffPhase st fresh).devices =
      updFoldList (fresh.filter (fun d => hasIdentM st.devices (rident d)))
        (st.devices.filter (fun od => hasIdentR fresh (mident od)))
      ++ addedRun st.knownDevices (fresh.filter (fun d => !(hasIdentM st.devices (rident d)))) := by
  unfold devicesDiffPhase
  dsimp only
  rw [addFold_devices, updateFold_devices, removeFold_devices,
    updateFold_knownDevices, removeFold_knownDevices]
  rw [eraseFold_filter st.devices (fun od => hasIdentR fresh (mident od))
    (fun x y hxy => by simp only [hxy])]

theorem diffPhase_prefAudio (st : MDM) (fresh : List RawDevice) :
    (devicesDiffPhase st fresh).prefAudio = st.prefAudio := by
  unfold devicesDiffPhase
  dsimp only
  rw [addFold_prefAudio, updateFold_prefAudio, removeFold_prefAudio]

theorem diffPhase_prefVideo (st : MDM) (fresh : List RawDevice) :
    (devicesDiffPhase st fresh).prefVideo = st.prefVideo := by
  unfold devicesDiffPhase
  dsimp only
  rw [addFold_prefVideo, updateFold_prefVideo, removeFold_prefVideo]

theorem mident_updElem (u : RawDevice) (d : MDevice) (h : mident d = rident u) :
    mident (updElem u d) = mident d := by
  have hk : d.kind = u.kind := by
    have := congrArg Prod.snd h
    simpa [mident, rident] using this
  unfold updElem mident
  simp [hk]

theorem updateFirst_map_mident (u : RawDevice) (l : List MDevice) :
    (updateFirst u l).map mident = l.map mident := by
  induction l with
  | nil => rfl
  | cons d t ih =>
      unfold updateFirst
      by_cases h : mident d = rident u
      · rw [if_pos h]
        simp only [List.map_cons]
        rw [mident_updElem u d h]
      · rw [if_neg h]
        simp only [List.map_cons]
        rw [ih]

theorem updFoldList_map_mident (ds : List RawDevice) (l : List MDevice) :
    (updFoldList ds l).map mident = l.map mident := by
  induction ds generalizing l with
  | nil => rfl
  | cons u t ih =>
      unfold updFoldList
      rw [List.foldl_cons]
      show (updFoldList t (updateFirst u l)).map mident = _
      rw [ih, updateFirst_map_mident]

theorem mident_mkAdded (kd : List (String × MDevice)) (a : RawDevice) :
    mident (mkAdded kd a) = rident a := by
  unfold mkAdded
  split <;> rfl

theorem addedRun_map_mident (ds : List RawDevice) :
    ∀ kd, (addedRun kd ds).map mident = ds.map rident := by
  induction ds with
  | nil => intro kd; rfl
  | cons a t ih =>
      intro kd
      unfold addedRun
      simp only [List.map_cons]
      rw [mident_mkAdded, ih]

theorem hasIdentM_iff (l : List MDevice) (i : String × DKind) :
    hasIdentM l i = true ↔ i ∈ l.map mident := by
  unfold hasIdentM
  rw [List.any_eq_true]
  constructor
  · rintro ⟨x, hx, hdec⟩
    rw [← of_decide_eq_true hdec]
    exact List.mem_map_of_mem mident hx
  · intro h
    rcases List.mem_map.mp h with ⟨x, hx, hxi⟩
    exact ⟨x, hx, decide_eq_true hxi⟩

theorem hasIdentR_iff (l : List RawDevice) (i : String × DKind) :
    hasIdentR l i = true ↔ i ∈ l.map rident := by
  unfold hasIdentR
  rw [List.any_eq_true]
  constructor
  · rintro ⟨x, hx, hdec⟩
    rw [← of_decide_eq_true hdec]
    exact List.mem_map_of_mem rident hx
  · intro h
    rcases List.mem_map.mp h with ⟨x, hx, hxi⟩
    exact ⟨x, hx, decide_eq_true hxi⟩

theorem D1_mem_fresh (st : MDM) (fresh : List RawDevice) :
    ∀ x ∈ (devicesDiffPhase st fresh).devices, hasIdentR fresh (mident x) = true := by
  intro x hx
  rw [diffPhase_devices] at hx
  rcases List.mem_append.mp hx with hl | hr
  · have hmap : mident x ∈ (updFoldList (fresh.filter (fun d => hasIdentM st.devices (rident d)))
        (st.devices.filter (fun od => hasIdentR fresh (mident od)))).map mident :=
      List.mem_map_of_mem mident hl
    rw [updFoldList_map_mident] at hmap
    rcases List.mem_map.mp hmap with ⟨y, hy, hyx⟩
    have := (List.mem_filter.mp hy).2
    rw [← hyx]
    exact this
  · have hmap : mident x ∈ (addedRun st.knownDevices
        (fresh.filter (fun d => !(hasIdentM st.devices (rident d))))).map mident :=
      List.mem_map_of_mem mident hr
    rw [addedRun_map_mident] at hmap
    rcases List.mem_map.mp hmap with ⟨a, ha, hax⟩
    have haf : a ∈ fresh := (List.mem_filter.mp ha).1
    rw [← hax]
    exact (hasIdentR_iff fresh (rident a)).mpr (List.mem_map_of_mem rident haf)

theorem fresh_mem_D1 (st : MDM) (fresh : List RawDevice) :
    ∀ d ∈ fresh, hasIdentM (devicesDiffPhase st fresh).devices (rident d) = true := by
  intro d hd
  rw [diffPhase_devices, hasIdentM_iff, List.map_append, updFoldList_map_mident,
    addedRun_map_mident]
  by_cases hm : hasIdentM st.devices (rident d) = true
  · apply List.mem_append_left
    rcases List.mem_map.mp ((hasIdentM_iff st.devices (rident d)).mp hm) with ⟨y, hy, hyd⟩
    have hkeep : y ∈ st.devices.filter (fun od => hasIdentR fresh (mident od)) := by
      refine List.mem_filter.mpr ⟨hy, ?_⟩
      rw [hyd]
      exact (hasIdentR_iff fresh (rident d)).mpr (List.mem_map_of_mem rident hd)
    rw [← hyd]
    exact List.mem_map_of_mem mident hkeep
  · apply List.mem_append_right
    have hda : d ∈ fresh.filter (fun x => !(hasIdentM st.devices (rident x))) := by
      refine List.mem_filter.mpr ⟨hd, ?_⟩
      simp [hm]
    exact List.mem_map_of_mem rident hda

theorem mdevice_update_self (d : MDevice) (x g : String) (k : DKind)
    (h1 : x = d.label) (h2 : g = d.groupId) (h3 : k = d.kind) :
    ({ d with label := x, groupId := g, kind := k } : MDevice) = d := by
  cases d
  simp_all

theorem updElem_self_of (u : RawDevice) (d : MDevice)
    (hid : mident d = rident u)
    (hlab : u.label ≠ "" → d.label = u.label)
    (hgrp : d.groupId = u.groupId) :
    updElem u d = d := by
  have hk : d.kind = u.kind := by
    have := congrArg Prod.snd hid
    simpa [mident, rident] using this
  unfold updElem
  apply mdevice_update_self
  · by_cases hl : u.label ≠ ""
    · rw [if_pos hl]
      exact (hlab hl).symm
    · rw [if_neg hl]
  · exact hgrp.symm
  · exact hk.symm

theorem updElem_label_of_ne (u : RawDevice) (d : MDevice) (hl : u.label ≠ "") :
    (updElem u d).label = u.label := by
  unfold updElem
  simp [hl]

theorem updElem_groupId (u : RawDevice) (d : MDevice) :
    (updElem u d).groupId = u.groupId := rfl

theorem updateFirst_cons (u : RawDevice) (d : MDevice) (t : List MDevice) :
    updateFirst u (d :: t) =
      if mident d = rident u then updElem u d :: t else d :: updateFirst u t := rfl

theorem updateFirst_idem (u : RawDevice) (l : List MDevice) :
    updateFirst u (updateFirst u l) = updateFirst u l := by
  induction l with
  | nil => rfl
  | cons d t ih =>
      by_cases h : mident d = rident u
      · rw [updateFirst_cons, if_pos h, updateFirst_cons]
        have hid : mident (updElem u d) = rident u := by rw [mident_updElem u d h, h]
        rw [if_pos hid]
        rw [updElem_self_of u (updElem u d) hid
          (fun hl => updElem_label_of_ne u d hl) (updElem_groupId u d)]
      · rw [updateFirst_cons, if_neg h, updateFirst_cons, if_neg h, ih]

theorem updateFirst_comm (u v : RawDevice) (huv : rident u ≠ rident v) (l : List MDevice) :
    updateFirst u (updateFirst v l) = updateFirst v (updateFirst u l) := by
  induction l with
  | nil => rfl
  | cons d t ih =>
      by_cases hv : mident d = rident v
      · have hu : ¬(mident d = rident u) := fun hu => huv (hu.symm.trans hv)
        rw [updateFirst_cons, updateFirst_cons, if_pos hv, if_neg hu,
          updateFirst_cons, updateFirst_cons]
        have hidv : mident (updElem v d) = mident d := mident_updElem v d hv
        rw [if_neg (by rw [hidv]; exact hu), if_pos hv]
      · by_cases hu : mident d = rident u
        · rw [updateFirst_cons, updateFirst_cons, if_neg hv, if_pos hu,
            updateFirst_cons, updateFirst_cons]
          have hidu : mident (updElem u d) = mident d := mident_updElem u d hu
          rw [if_pos hu, if_neg (by rw [hidu]; exact hv)]
        · rw [updateFirst_cons, updateFirst_cons, if_neg hv, if_neg hu,
            updateFirst_cons, updateFirst_cons, if_neg hu, if_neg hv, ih]

theorem updateFirst_append_left (u : RawDevice) (l1 l2 : List MDevice)
    (h : ∃ x ∈ l1, mident x = rident u) :
    updateFirst u (l1 ++ l2) = updateFirst u l1 ++ l2 := by
  induction l1 with
  | nil => rcases h with ⟨x, hx, _⟩; cases hx
  | cons d t ih =>
      by_cases hd : mident d = rident u
      · show (if mident d = rident u then updElem u d :: (t ++ l2)
              else d :: updateFirst u (t ++ l2)) = _
        rw [if_pos hd]
        show updElem u d :: (t ++ l2) =
          (if mident d = rident u then updElem u d :: t else d :: updateFirst u t) ++ l2
        rw [if_pos hd]
        rfl
      · have h' : ∃ x ∈ t, mident x = rident u := by
          rcases h with ⟨x, hx, hxe⟩
          rcases List.mem_cons.mp hx with h1 | h1
          · exact absurd (h1 ▸ hxe) hd
          · exact ⟨x, h1, hxe⟩
        show (if mident d = rident u then updElem u d :: (t ++ l2)
              else d :: updateFirst u (t ++ l2)) = _
        rw [if_neg hd, ih h']
        show d :: (updateFirst u t ++ l2) =
          (if mident d = rident u then updElem u d :: t else d :: updateFirst u t) ++ l2
        rw [if_neg hd]
        rfl

theorem updateFirst_append_right (u : RawDevice) (l1 l2 : List MDevice)
    (h : ∀ x ∈ l1, mident x ≠ rident u) :
    updateFirst u (l1 ++ l2) = l1 ++ updateFirst u l2 := by
  induction l1 with
  | nil => rfl
  | cons d t ih =>
      have hd : ¬(mident d = rident u) := h d (List.mem_cons_self d t)
      show (if mident d = rident u then updElem u d :: (t ++ l2)
            else d :: updateFirst u (t ++ l2)) = _
      rw [if_neg hd, ih (fun x hx => h x (List.mem_cons_of_mem d hx))]
      rfl

theorem updFoldList_cons (u : RawDevice) (ds : List RawDevice) (l : List MDevice) :
    updFoldList (u :: ds) l = updFoldList ds (updateFirst u l) := rfl

theorem updFold_pull (u : RawDevice) (ds : List RawDevice)
    (h : ∀ f ∈ ds, rident f ≠ rident u) :
    ∀ l, updateFirst u (updFoldList ds l) = updFoldList ds (updateFirst u l) := by
  induction ds with
  | nil => intro l; rfl
  | cons f t ih =>
      intro l
      rw [updFoldList_cons, updFoldList_cons]
      rw [ih (fun x hx => h x (List.mem_cons_of_mem f hx))]
      rw [updateFirst_comm u f (fun he => h f (List.mem_cons_self f t) he.symm)]

theorem updFold_self_fixed (ds : List RawDevice) (hnd : (ds.map rident).Nodup)
    (d : RawDevice) (hd : d ∈ ds) :
    ∀ l, updateFirst d (updFoldList ds l) = updFoldList ds l := by
  induction ds with
  | nil => cases hd
  | cons e t ih =>
      intro l
      rw [updFoldList_cons]
      rcases List.mem_cons.mp hd with he | ht
      · subst he
        have hnotin : ∀ f ∈ t, rident f ≠ rident d := by
          intro f hf hfe
          exact (List.nodup_cons.mp hnd).1 (hfe ▸ List.mem_map_of_mem rident hf)
        rw [updFold_pull d t hnotin, updateFirst_idem]
      · exact ih (List.nodup_cons.mp hnd).2 ht (updateFirst e l)

theorem mkAdded_label_of_ne (kd : List (String × MDevice)) (a : RawDevice)
    (hl : a.label ≠ "") : (mkAdded kd a).label = a.label := by
  unfold mkAdded
  split
  · simp [hl]
  · rfl

theorem mkAdded_groupId (kd : List (String × MDevice)) (a : RawDevice) :
    (mkAdded kd a).groupId = a.groupId := by
  unfold mkAdded
  split <;> rfl

theorem mkAdded_fixed (kd : List (String × MDevice)) (a : RawDevice) :
    updElem a (mkAdded kd a) = mkAdded kd a :=
  updElem_self_of a (mkAdded kd a) (mident_mkAdded kd a)
    (fun hl => mkAdded_label_of_ne kd a hl) (mkAdded_groupId kd a)

theorem addedRun_cons (kd : List (String × MDevice)) (a : RawDevice) (t : List RawDevice) :
    addedRun kd (a :: t) =
      mkAdded kd a :: addedRun (knownUpsert kd (devKey a.kind a.deviceId) (mkAdded kd a)) t := rfl

theorem updateFirst_addedRun (ds : List RawDevice) (a : RawDevice)
    (ha : a ∈ ds) (hnd : (ds.map rident).Nodup) :
    ∀ kd, updateFirst a (addedRun kd ds) = addedRun kd ds := by
  induction ds with
  | nil => cases ha
  | cons b t ih =>
      intro kd
      rw [addedRun_cons, updateFirst_cons]
      by_cases hab : rident a = rident b
      · have haeb : a = b := by
          rcases List.mem_cons.mp ha with h | h
          · exact h
          · exfalso
            exact (List.nodup_cons.mp hnd).1 (hab ▸ List.mem_map_of_mem rident h)
        subst haeb
        rw [if_pos (by rw [mident_mkAdded])]
        rw [mkAdded_fixed]
      · have hat : a ∈ t := by
          rcases List.mem_cons.mp ha with h | h
          · exact absurd (h ▸ rfl) hab
          · exact h
        rw [if_neg (by rw [mident_mkAdded]; exact fun he => hab he.symm)]
        rw [ih hat (List.nodup_cons.mp hnd).2]

theorem updateFirst_D1 (st : MDM) (fresh : List RawDevice)
    (hnd : (fresh.map rident).Nodup) :
    ∀ d ∈ fresh, updateFirst d ((devicesDiffPhase st fresh).devices) =
      (devicesDiffPhase st fresh).devices := by
  intro d hd
  rw [diffPhase_devices]
  by_cases hm : hasIdentM st.devices (rident d) = true
  · have hdu : d ∈ fresh.filter (fun x => hasIdentM st.devices (rident x)) :=
      List.mem_filter.mpr ⟨hd, hm⟩
    have hndu : ((fresh.filter (fun x => hasIdentM st.devices (rident x))).map rident).Nodup :=
      List.Nodup.sublist (List.Sublist.map rident (List.filter_sublist fresh)) hnd
    have hinU : ∃ x ∈ updFoldList (fresh.filter (fun x => hasIdentM st.devices (rident x)))
        (st.devices.filter (fun od => hasIdentR fresh (mident od))), mident x = rident d := by
      rcases List.mem_map.mp ((hasIdentM_iff st.devices (rident d)).mp hm) with ⟨y, hy, hyd⟩
      have hkeep : y ∈ st.devices.filter (fun od => hasIdentR fresh (mident od)) := by
        refine List.mem_filter.mpr ⟨hy, ?_⟩
        rw [hyd]
        exact (hasIdentR_iff fresh (rident d)).mpr (List.mem_map_of_mem rident hd)
      have : rident d ∈ (updFoldList (fresh.filter (fun x => hasIdentM st.devices (rident x)))
          (st.devices.filter (fun od => hasIdentR fresh (mident od)))).map mident := by
        rw [updFoldList_map_mident, ← hyd]
        exact List.mem_map_of_mem mident hkeep
      rcases List.mem_map.mp this with ⟨x, hx, hxi⟩
      exact ⟨x, hx, hxi⟩
    rw [updateFirst_append_left d _ _ hinU]
    rw [updFold_self_fixed _ hndu d hdu]
  · have hda : d ∈ fresh.filter (fun x => !(hasIdentM st.devices (rident x))) :=
      List.mem_filter.mpr ⟨hd, by simp [hm]⟩
    have hnda : ((fresh.filter (fun x => !(hasIdentM st.devices (rident x)))).map rident).Nodup :=
      List.Nodup.sublist (List.Sublist.map rident (List.filter_sublist fresh)) hnd
    have hnomatch : ∀ x ∈ updFoldList (fresh.filter (fun x => hasIdentM st.devices (rident x)))
        (st.devices.filter (fun od => hasIdentR fresh (mident od))), mident x ≠ rident d := by
      intro x hx hxe
      have hmap : mident x ∈ (updFoldList (fresh.filter (fun x => hasIdentM st.devices (rident x)))
          (st.devices.filter (fun od => hasIdentR fresh (mident od)))).map mident :=
        List.mem_map_of_mem mident hx
      rw [updFoldList_map_mident] at hmap
      rcases List.mem_map.mp hmap with ⟨y, hy, hyx⟩
      have hyd : y ∈ st.devices := (List.mem_filter.mp hy).1
      have : hasIdentM st.devices (rident d) = true := by
        rw [hasIdentM_iff, ← hxe, ← hyx]
        exact List.mem_map_of_mem mident hyd
      exact hm this
    rw [updateFirst_append_right d _ _ hnomatch]
    rw [updateFirst_addedRun _ d hda hnda]

theorem filter_removed_nil (L : List MDevice) (fresh : List RawDevice)
    (h : ∀ x ∈ L, hasIdentR fresh (mident x) = true) :
    L.filter (fun od => !(hasIdentR fresh (mident od))) = [] := by
  rw [List.filter_eq_nil_iff]
  intro x hx
  simp [h x hx]

theorem filter_updated_all (L : List MDevice) (fresh : List RawDevice)
    (h : ∀ d ∈ fresh, hasIdentM L (rident d) = true) :
    fresh.filter (fun d => hasIdentM L (rident d)) = fresh :=
  List.filter_eq_self.mpr h

theorem filter_added_nil (L : List MDevice) (fresh : List RawDevice)
    (h : ∀ d ∈ fresh, hasIdentM L (rident d) = true) :
    fresh.filter (fun d => !(hasIdentM L (rident d))) = [] := by
  rw [List.filter_eq_nil_iff]
  intro x hx
  simp [h x hx]

theorem updateFoldState_id (ds : List RawDevice) :
    ∀ (st : MDM), (∀ d ∈ ds, updateFirst d st.devices = st.devices) →
      ds.foldl updateDevice st = st := by
  induction ds with
  | nil => intro st _; rfl
  | cons d t ih =>
      intro st h
      rw [List.foldl_cons]
      have hstep : updateDevice st d = st := by
        unfold updateDevice
        rw [h d (List.mem_cons_self d t)]
      rw [hstep]
      exact ih st (fun x hx => h x (List.mem_cons_of_mem d hx))

theorem diffPhase_self (st1 : MDM) (fresh : List RawDevice)
    (hrem : st1.devices.filter (fun od => !(hasIdentR fresh (mident od))) = [])
    (hupd : fresh.filter (fun d => hasIdentM st1.devices (rident d)) = fresh)
    (hadd : fresh.filter (fun d => !(hasIdentM st1.devices (rident d))) = [])
    (hfix : ∀ d ∈ fresh, updateFirst d st1.devices = st1.devices) :
    devicesDiffPhase st1 fresh = st1 := by
  unfold devicesDiffPhase
  dsimp only
  rw [hrem, hupd, hadd]
  simp only [List.foldl_nil]
  exact updateFoldState_id fresh st1 hfix

theorem mem_populateList_of_mem_list (ids : List String) :
    ∀ (l : List String) (i : String), i ∈ l → i ∈ populateList ids l := by
  induction ids with
  | nil => intro l i h; exact h
  | cons j t ih =>
      intro l i h
      unfold populateList
      rw [List.foldl_cons]
      show i ∈ populateList t (if l.contains j then l else l ++ [j])
      apply ih
      by_cases hc : l.contains j = true
      · rw [if_pos hc]; exact h
      · rw [if_neg hc]; exact List.mem_append_left _ h

theorem mem_populateList_of_mem_ids (ids : List String) :
    ∀ (l : List String) (i : String), i ∈ ids → i ∈ populateList ids l := by
  induction ids with
  | nil => intro l i h; cases h
  | cons j t ih =>
      intro l i h
      unfold populateList
      rw [List.foldl_cons]
      show i ∈ populateList t (if l.contains j then l else l ++ [j])
      rcases List.mem_cons.mp h with he | ht
      · subst he
        apply mem_populateList_of_mem_list
        by_cases hc : l.contains i = true
        · rw [if_pos hc]
          exact List.elem_iff.mp hc
        · rw [if_neg hc]
          exact List.mem_append_right _ (List.mem_singleton.mpr rfl)
      · exact ih _ i ht

theorem populateList_eq_self (ids : List String) :
    ∀ (l : List String), (∀ i ∈ ids, i ∈ l) → populateList ids l = l := by
  induction ids with
  | nil => intro l _; rfl
  | cons j t ih =>
      intro l h
      unfold populateList
      rw [List.foldl_cons]
      show populateList t (if l.contains j then l else l ++ [j]) = l
      have hc : l.contains j = true := List.elem_iff.mpr (h j (List.mem_cons_self j t))
      rw [if_pos hc]
      exact ih l (fun i hi => h i (List.mem_cons_of_mem j hi))

theorem populatePhase_prefAudio (st : MDM) (fresh : List RawDevice) :
    (populatePhase st fresh).prefAudio =
      populateList (kindIds fresh .audioinput) st.prefAudio := by
  unfold populatePhase
  dsimp only
  split <;> split <;> simp_all

theorem populatePhase_prefVideo (st : MDM) (fresh : List RawDevice) :
    (populatePhase st fresh).prefVideo =
      populateList (kindIds fresh .videoinput) st.prefVideo := by
  unfold populatePhase
  dsimp only
  split <;> split <;> simp_all

theorem populatePhase_devices (st : MDM) (fresh : List RawDevice) :
    (populatePhase st fresh).devices = st.devices := by
  unfold populatePhase
  dsimp only
  split <;> split <;> rfl

theorem populatePhase_self (st : MDM) (fresh : List RawDevice)
    (h1 : populateList (kindIds fresh .audioinput) st.prefAudio = st.prefAudio)
    (h2 : populateList (kindIds fresh .videoinput) st.prefVideo = st.prefVideo) :
    populatePhase st fresh = st := by
  unfold populatePhase
  dsimp only
  rw [h1, h2]
  simp

theorem find?_congr {α : Type} (p q : α → Bool) (h : ∀ a, p a = q a) (l : List α) :
    l.find? p = l.find? q := by
  have hpq : p = q := funext h
  rw [hpq]

theorem anyId_iff (ids : List String) (s : String) :
    (ids.any (fun d => d == s)) = true ↔ s ∈ ids := by
  rw [List.any_eq_true]
  constructor
  · rintro ⟨x, hx, he⟩
    have hxs : x = s := by simpa using he
    exact hxs ▸ hx
  · intro h
    exact ⟨s, h, by simp⟩

theorem mem_devIdsOfM (l : List MDevice) (s : String) :
    s ∈ devIdsOfM l ↔ ∃ x ∈ l, x.deviceId = s := by
  unfold devIdsOfM
  constructor
  · intro h
    rcases List.mem_map.mp h with ⟨x, hx, hxs⟩
    exact ⟨x, hx, hxs⟩
  · rintro ⟨x, hx, hxs⟩
    exact List.mem_map.mpr ⟨x, hx, hxs⟩

theorem mem_devIdsOfR (l : List RawDevice) (s : String) :
    s ∈ devIdsOfR l ↔ ∃ x ∈ l, x.deviceId = s := by
  unfold devIdsOfR
  constructor
  · intro h
    rcases List.mem_map.mp h with ⟨x, hx, hxs⟩
    exact ⟨x, hx, hxs⟩
  · rintro ⟨x, hx, hxs⟩
    exact List.mem_map.mpr ⟨x, hx, hxs⟩

theorem presence_equiv (st1 : MDM) (fresh : List RawDevice)
    (hmemD : ∀ x ∈ st1.devices, hasIdentR fresh (mident x) = true)
    (hmemF : ∀ d ∈ fresh, hasIdentM st1.devices (rident d) = true) (s : String) :
    ((devIdsOfM st1.devices).any (fun d => d == s)) =
      ((devIdsOfR fresh).any (fun d => d == s)) := by
  apply Bool.coe_iff_coe.mp
  rw [anyId_iff, anyId_iff, mem_devIdsOfM, mem_devIdsOfR]
  constructor
  · rintro ⟨x, hx, hxs⟩
    rcases List.mem_map.mp ((hasIdentR_iff fresh (mident x)).mp (hmemD x hx)) with ⟨f, hf, hfx⟩
    refine ⟨f, hf, ?_⟩
    have : f.deviceId = x.deviceId := by
      have := congrArg Prod.fst hfx
      simpa [mident, rident] using this
    rw [this, hxs]
  · rintro ⟨f, hf, hfs⟩
    rcases List.mem_map.mp ((hasIdentM_iff st1.devices (rident f)).mp (hmemF f hf)) with
      ⟨x, hx, hxf⟩
    refine ⟨x, hx, ?_⟩
    have : x.deviceId = f.deviceId := by
      have := congrArg Prod.fst hxf
      simpa [mident, rident] using this
    rw [this, hfs]

theorem jsOr_sticky (a1 : Sel) (A first : Option String)
    (hne : a1 ≠ .pin "")
    (hch : a1 = jsOrId A first ∨ a1 ≠ .undef)
    (hst : stickyCond a1 A = true) :
    jsOrId A first = a1 := by
  cases a1 with
  | undef =>
      rcases hch with h | h
      · exact h.symm
      · exact absurd rfl h
  | nullv =>
      rw [stickyCond_nullv] at hst
      cases hst
  | pin s =>
      have hA : A = some s := by
        unfold stickyCond at hst
        cases A with
        | none => simp [selEqOpt] at hst
        | some b =>
            have hb : s = b := by simpa [selEqOpt] using hst
            rw [hb]
      subst hA
      have hs : s ≠ "" := fun he => hne (by rw [he])
      show (if s ≠ "" then Sel.pin s else _) = Sel.pin s
      rw [if_pos hs]

theorem newAudioSel_char (st : MDM) (fresh : List RawDevice) :
    newAudioSel st fresh = autoPickA st fresh ∨
      (newAudioSel st fresh = (midState st fresh).audioInputId ∧
        newAudioSel st fresh ≠ .undef) := by
  unfold newAudioSel
  by_cases h : stickyCond (midState st fresh).audioInputId (prevFirstAOf st) = true
  · left
    rw [if_pos h]
  · right
    rw [if_neg h]
    refine ⟨rfl, ?_⟩
    intro he
    apply h
    rw [he]
    simp [stickyCond]

theorem newVideoSel_char (st : MDM) (fresh : List RawDevice) :
    newVideoSel st fresh = autoPickV st fresh ∨
      (newVideoSel st fresh = (midState st fresh).videoInputId ∧
        newVideoSel st fresh ≠ .undef) := by
  unfold newVideoSel
  by_cases h : stickyCond (midState st fresh).videoInputId (prevFirstVOf st) = true
  · left
    rw [if_pos h]
  · right
    rw [if_neg h]
    refine ⟨rfl, ?_⟩
    intro he
    apply h
    rw [he]
    simp [stickyCond]

theorem mdm_resolve_self (m : MDM) (hp : m.pending = false) :
    ({ m with
        audioInputId := m.audioInputId
        videoInputId := m.videoInputId
        events := m.events ++
          (if m.audioInputId ≠ m.audioInputId then ["change:audioInputId"] else []) ++
          (if m.videoInputId ≠ m.videoInputId then ["change:videoInputId"] else [])
        pending := false } : MDM) = m := by
  cases m
  simp_all

def c9ExSt : MDM := { newMDM [] true with audioInputId := .pin "", prefAudio := ["", "mic1"] }

def c9ExFresh : List RawDevice :=
  [⟨"mic1", "g1", .audioinput, ""⟩, ⟨"", "g0", .audioinput, ""⟩]

/-- C9 counterexample: the selection is the concrete empty-string id (the
pre-permission default), the preference list starts with the empty string.
The first enumeration pass leaves the selection alone (its guard fails
against the old device list) and fires no events; the SECOND pass with the
identical fresh list now finds the selection equal to the recomputed
previous default, recomputes it through the falsy-skipping `||` chain to
"mic1", changes the selection and fires `change:audioInputId` — so the
diff engine is not idempotent as claimed. -/
theorem claim9_counterexample :
    (updateDevicesResolve c9ExSt c9ExFresh).events = [] ∧
    (updateDevicesResolve c9ExSt c9ExFresh).audioInputId = .pin "" ∧
    (updateDevicesResolve (updateDevicesResolve c9ExSt c9ExFresh) c9ExFresh).events =
      ["change:audioInputId"] ∧
    (updateDevicesResolve (updateDevicesResolve c9ExSt c9ExFresh) c9ExFresh).audioInputId =
      .pin "mic1" := by
  refine ⟨by decide, by decide, by decide, by decide⟩

/-- C9 amended: for a fresh enumeration with no duplicate
(deviceId, kind) identities (as hardware enumeration results are), running
the enumeration-processing step a second time with the same fresh list is
the identity on the whole manager state — in particular it produces no
change notifications and leaves the device list, preference lists and
selections equal — PROVIDED neither selection ends the first run as the
concrete empty-string identifier (for the empty-string selection the
second run can re-trigger the recompute and move the selection, as the
counterexample shows). -/
theorem claim9_amended (st : MDM) (fresh : List RawDevice)
    (hnd : (fresh.map rident).Nodup)
    (ha : (updateDevicesResolve st fresh).audioInputId ≠ .pin "")
    (hv : (updateDevicesResolve st fresh).videoInputId ≠ .pin "") :
    updateDevicesResolve (updateDevicesResolve st fresh) fresh =
      updateDevicesResolve st fresh := by
  have hdev1 : (updateDevicesResolve st fresh).devices = (devicesDiffPhase st fresh).devices := by
    rw [updateDevicesResolve_eq]
    show (midState st fresh).devices = _
    unfold midState
    exact populatePhase_devices _ _
  have haud1 : (updateDevicesResolve st fresh).audioInputId = newAudioSel st fresh := by
    rw [updateDevicesResolve_eq]
  have hvid1 : (updateDevicesResolve st fresh).videoInputId = newVideoSel st fresh := by
    rw [updateDevicesResolve_eq]
  have hpA1 : (updateDevicesResolve st fresh).prefAudio = (midState st fresh).prefAudio := by
    rw [updateDevicesResolve_eq]
  have hpV1 : (updateDevicesResolve st fresh).prefVideo = (midState st fresh).prefVideo := by
    rw [updateDevicesResolve_eq]
  have hpend1 : (updateDevicesResolve st fresh).pending = false := by
    rw [updateDevicesResolve_eq]
  set st1 := updateDevicesResolve st fresh with hst1
  have hmemD : ∀ x ∈ st1.devices, hasIdentR fresh (mident x) = true := by
    rw [hdev1]
    exact D1_mem_fresh st fresh
  have hmemF : ∀ d ∈ fresh, hasIdentM st1.devices (rident d) = true := by
    intro d hd
    rw [hdev1]
    exact fresh_mem_D1 st fresh d hd
  have hfix : ∀ d ∈ fresh, updateFirst d st1.devices = st1.devices := by
    intro d hd
    rw [hdev1]
    exact updateFirst_D1 st fresh hnd d hd
  have hdiff2 : devicesDiffPhase st1 fresh = st1 :=
    diffPhase_self st1 fresh (filter_removed_nil _ _ hmemD) (filter_updated_all _ _ hmemF)
      (filter_added_nil _ _ hmemF) hfix
  have hprefA1 : st1.prefAudio = populateList (kindIds fresh .audioinput) st.prefAudio := by
    rw [hpA1]
    unfold midState
    rw [populatePhase_prefAudio, diffPhase_prefAudio]
  have hprefV1 : st1.prefVideo = populateList (kindIds fresh .videoinput) st.prefVideo := by
    rw [hpV1]
    unfold midState
    rw [populatePhase_prefVideo, diffPhase_prefVideo]
  have hpopA : populateList (kindIds fresh .audioinput) st1.prefAudio = st1.prefAudio := by
    apply populateList_eq_self
    intro i hi
    rw [hprefA1]
    exact mem_populateList_of_mem_ids _ _ i hi
  have hpopV : populateList (kindIds fresh .videoinput) st1.prefVideo = st1.prefVideo := by
    apply populateList_eq_self
    intro i hi
    rw [hprefV1]
    exact mem_populateList_of_mem_ids _ _ i hi
  have hmid2 : midState st1 fresh = st1 := by
    unfold midState
    rw [hdiff2]
    exact populatePhase_self st1 fresh hpopA hpopV
  have hprevA2 : prevFirstAOf st1 =
      getFirstAvailableMediaDevice (devIdsOfR fresh) st1.prefAudio := by
    unfold prevFirstAOf getFirstAvailableMediaDevice
    exact find?_congr _ _ (fun i => presence_equiv st1 fresh hmemD hmemF i) st1.prefAudio
  have hprevV2 : prevFirstVOf st1 =
      getFirstAvailableMediaDevice (devIdsOfR fresh) st1.prefVideo := by
    unfold prevFirstVOf getFirstAvailableMediaDevice
    exact find?_congr _ _ (fun i => presence_equiv st1 fresh hmemD hmemF i) st1.prefVideo
  have hstick2A : newAudioSel st1 fresh = st1.audioInputId := by
    unfold newAudioSel
    rw [hmid2, hprevA2]
    by_cases h : stickyCond st1.audioInputId
        (getFirstAvailableMediaDevice (devIdsOfR fresh) st1.prefAudio) = true
    · rw [if_pos h]
      unfold autoPickA
      rw [hmid2]
      apply jsOr_sticky _ _ _ ha ?_ h
      rcases newAudioSel_char st fresh with hc | hc
      · left
        rw [haud1, hc]
        unfold autoPickA
        rw [hpA1]
      · right
        rw [haud1]
        exact hc.2
    · rw [if_neg h]
  have hstick2V : newVideoSel st1 fresh = st1.videoInputId := by
    unfold newVideoSel
    rw [hmid2, hprevV2]
    by_cases h : stickyCond st1.videoInputId
        (getFirstAvailableMediaDevice (devIdsOfR fresh) st1.prefVideo) = true
    · rw [if_pos h]
      unfold autoPickV
      rw [hmid2]
      apply jsOr_sticky _ _ _ hv ?_ h
      rcases newVideoSel_char st fresh with hc | hc
      · left
        rw [hvid1, hc]
        unfold autoPickV
        rw [hpV1]
      · right
        rw [hvid1]
        exact hc.2
    · rw [if_neg h]
  rw [updateDevicesResolve_eq st1 fresh, hmid2, hstick2A, hstick2V]
  exact mdm_resolve_self st1 hpend1

def c9WitFresh : List RawDevice := [⟨"mic1", "g1", .audioinput, "Mic"⟩]

theorem claim9_witness :
    updateDevicesResolve (updateDevicesResolve (newMDM [] true) c9WitFresh) c9WitFresh =
      updateDevicesResolve (newMDM [] true) c9WitFresh :=
  claim9_amended (newMDM [] true) c9WitFresh (by decide) (by decide) (by decide)
